import Mathlib

/-!
Shallow embedding of `src/Clazzy.js` (the `clazz` library): a class-definition
compiler (`create`) that turns a declarative record into a constructor with
prototype-based inheritance, mixin inclusion, static members minus inheritance,
and a rebindable `this.super` dispatch handle.

Modelling conventions:
* JavaScript objects are modelled as association lists `List (String × Value)`
  where property lookup takes the first binding; since a JS object cannot hold
  two properties of the same name, a list with shadowed duplicate keys
  represents the same object as its key-deduplicated form.
* Machine state is passed explicitly: an instance is its own-property list plus
  a reference to its class; class prototypes live in a `World` (list of class
  descriptors indexed by creation order), so that mutating a base prototype
  after creation is expressible (the source reads `base.prototype[signature]`
  afresh on every call).
* `Object.prototype` is modelled by `objectProtoGet`: its standard properties,
  all non-enumerable, with `constructor` bound to the `Object` function itself.
* Method bodies are a small deep-embedded statement language `Body`; the
  interpreter (`callFn` / `evalBody`) is fuel-indexed and total.
* The enumerability subtlety of `constructor` (non-enumerable on a fresh
  function prototype, enumerable once assigned over an `Object.create` result)
  is not tracked: the model always records `constructor` as an own prototype
  property.  This is observationally equivalent for property lookup, because
  the finalize step of `create` overwrites `constructor` last in either case.
-/

set_option autoImplicit false

namespace Clazzy

/-- Literal constants usable inside a method body. -/
inductive Lit where
  | undef
  | str (s : String)
  | nat (n : Nat)
  | bool (b : Bool)

/-- A deep-embedded method body.  This is the fragment of JavaScript needed by
the library's own documentation examples: reading arguments, reading and
assigning properties of `this`, calling methods of `this` (in particular
`this.super(...)`), sequencing, string concatenation and throwing. -/
inductive Body where
  | lit (l : Lit)
  | arg (i : Nat)
  | getThis (name : String)
  | setThis (name : String) (e : Body)
  | seq (a b : Body)
  | callOnThis (name : String) (args : List Body)
  | concat (a b : Body)
  | throwErr

/-- Runtime values.  Functions carry the data their JavaScript closures carry:
a wrapped method remembers the original member, the lookup signature and the
base captured by `wrapMethodToHaveSuper`; a class constructor is a reference
into the world; `objectFn` is the host `Object` function; `noSuperFn` is the
`noSuper` sentinel; `nativeFn` stands for the remaining non-enumerable
built-ins of `Object.prototype`. -/
inductive Value where
  | undef
  | vStr (s : String)
  | vNat (n : Nat)
  | vBool (b : Bool)
  | emptyObj
  | arr (xs : List Value)
  | objLit (props : List (String × Value))
  | plainFn (body : Body)
  | wrappedFn (method : Value) (signature : String) (base : Option Nat)
  | classFn (cid : Nat)
  | objectFn
  | noSuperFn
  | nativeFn (name : String)

/-- The two errors raised by the library, plus the host failures that its code
can trigger (calling a non-function, `throw` from user code). -/
inductive JsError where
  | reservedNameError
  | noSuperclassMethodError
  | typeError
  | userError
  deriving DecidableEq

/-- JavaScript truthiness, restricted to the values of the model
(`x || noSuper` in `wrapMethodToHaveSuper`). -/
def isTruthy : Value → Bool
  | .undef => false
  | .vStr s => !(s == "")
  | .vNat n => !(n == 0)
  | .vBool b => b
  | _ => true

/-- `typeof v === 'function'`. -/
def isFunction : Value → Bool
  | .plainFn _ => true
  | .wrappedFn _ _ _ => true
  | .classFn _ => true
  | .objectFn => true
  | .noSuperFn => true
  | .nativeFn _ => true
  | _ => false

/-- First-binding association-list lookup: property read on an own-property
record. -/
def lookupProp : List (String × Value) → String → Option Value
  | [], _ => none
  | (k, v) :: rest, n => if k = n then some v else lookupProp rest n

/-- In-place association-list update: property assignment on a record
(overwrites the existing binding, otherwise appends, preserving the JS
insertion order of `for..in`). -/
def setProp : List (String × Value) → String → Value → List (String × Value)
  | [], n, v => [(n, v)]
  | (k, w) :: rest, n, v =>
    if k = n then (n, v) :: rest else (k, w) :: setProp rest n v

/-- Keep-first key deduplication: the canonical own-property record an
association list denotes (a JS object never holds a key twice). -/
def dedupKeys : List (String × Value) → List (String × Value)
  | [] => []
  | (k, v) :: rest =>
    (k, v) :: (dedupKeys rest).filter (fun kv => !(kv.1 == k))

/-- A compiled class descriptor: the own enumerable properties of
`Class.prototype`, the prototype-chain parent installed by step 2 of `create`
(`none` means the chain continues at `Object.prototype`), the static members
copied onto the constructor, and the `includes` / `initialize` variables
captured by the `Class` constructor closure.  The field for the captured
`initialize` variable is called `initializer`. -/
structure ClazzD where
  protoProps : List (String × Value)
  protoParent : Option Nat
  statics : List (String × Value)
  includes : Option (List Value)
  initializer : Option Value

/-- The world: every class descriptor created so far, indexed by creation
order.  `Value.classFn i` refers to position `i`. -/
abbrev World := List ClazzD

/-- The standard own properties of `Object.prototype`.  `constructor` is the
`Object` function itself; the others are opaque built-ins.  All of them are
non-enumerable in the host, so they never show up in `for..in` copying, but
they are reachable by ordinary property reads such as
`base.prototype[signature]`. -/
def objectProtoGet : String → Value
  | "constructor" => .objectFn
  | "toString" => .nativeFn "toString"
  | "toLocaleString" => .nativeFn "toLocaleString"
  | "valueOf" => .nativeFn "valueOf"
  | "hasOwnProperty" => .nativeFn "hasOwnProperty"
  | "isPrototypeOf" => .nativeFn "isPrototypeOf"
  | "propertyIsEnumerable" => .nativeFn "propertyIsEnumerable"
  | _ => (.undef)

/-- Chain walker for `protoGet`, structurally recursive on a step budget.
Worlds built by `create` only link a prototype to a previously created class,
so the chain index strictly decreases; a forward link (unreachable through
`create`) stops the walk, which is why a budget of `cid + 1` steps always
suffices. -/
def protoGetGo (w : World) : Nat → Nat → String → Value
  | 0, _, _ => .undef
  | fuel + 1, cid, n =>
    match w[cid]? with
    | none => .undef
    | some d =>
      match lookupProp d.protoProps n with
      | some v => v
      | none =>
        match d.protoParent with
        | none => objectProtoGet n
        | some p => if p < cid then protoGetGo w fuel p n else (.undef)

/-- Property read on the prototype object of class `cid`, walking the
prototype chain down to `Object.prototype`. -/
def protoGet (w : World) (cid : Nat) (n : String) : Value :=
  protoGetGo w (cid + 1) cid n

/-- Property read on `base.prototype` where `base` is either the host `Object`
function (`none`, the default base of `create`) or a created class. -/
def protoGetOfBase (w : World) (b : Option Nat) (n : String) : Value :=
  match b with
  | none => objectProtoGet n
  | some cid => protoGet w cid n

/-- The `for..in` enumeration of an unconstructed instance of class `cid`:
every enumerable property name along its prototype chain, paired with the
most-derived value (which is also the descriptor `getPropertyDescriptor`
retrieves with `deep = true`).  Own properties come first in insertion order;
a name already seen shadows the same name further up; the walk stops before
`Object.prototype`, whose properties are non-enumerable. -/
def chainEnumGo (w : World) : Nat → Nat → List (String × Value)
  | 0, _ => []
  | fuel + 1, cid =>
    match w[cid]? with
    | none => []
    | some d =>
      match d.protoParent with
      | none => dedupKeys d.protoProps
      | some p =>
        if p < cid then
          dedupKeys d.protoProps ++
            (chainEnumGo w fuel p).filter
              (fun kv => (lookupProp (dedupKeys d.protoProps) kv.1).isNone)
        else dedupKeys d.protoProps

/-- See `chainEnumGo`: a budget of `cid + 1` steps always suffices because
the chain index strictly decreases. -/
def chainEnum (w : World) (cid : Nat) : List (String × Value) :=
  chainEnumGo w (cid + 1) cid

/-- An instance: a reference to its class (its prototype link) and its own
properties. -/
structure Inst where
  cls : Nat
  props : List (String × Value)

/-- Property read on an instance: own properties first, then the prototype
chain of its class. -/
def instGet (w : World) (i : Inst) (n : String) : Value :=
  match lookupProp i.props n with
  | some v => v
  | none => protoGet w i.cls n

/-- Property assignment on an instance (always creates or overwrites an own
property). -/
def instSet (i : Inst) (n : String) (v : Value) : Inst :=
  { i with props := setProp i.props n v }

/-- `wrapMethodToHaveSuper(method, signature, base)` (source lines 134-166):
build the replacement callable, closing over the member, the lookup signature
and the base.  Its call-time behaviour (save, rebind, run, restore) lives in
`callFn`. -/
def wrapMethodToHaveSuper (method : Value) (signature : String)
    (base : Option Nat) : Value :=
  .wrappedFn method signature base

/-- `copyProperties(member, Class, false)` as used by the `static` case
(source lines 121-130 and 257-261): copy each own enumerable property of the
`static` block onto the class descriptor, shallowly.  A non-record value has
no own enumerable properties, so nothing is copied. -/
def copyStatics (member : Value) (statics : List (String × Value)) :
    List (String × Value) :=
  match member with
  | .objLit ps => (dedupKeys ps).foldl (fun acc kv => setProp acc kv.1 kv.2) statics
  | _ => statics

/-- Step 4 of `create` (source lines 234-283): iterate the definition's own
enumerable properties in order, dispatching on the property name exactly like
the `switch` of the source.  `base` is the variable set in step 2 (`none` is
the host `Object`). -/
def defineLoop (base : Option Nat) (st : ClazzD) :
    List (String × Value) → Except JsError ClazzD
  | [] => .ok st
  | (k, v) :: rest =>
    if k = "initialize" then
      defineLoop base
        { st with initializer := some (wrapMethodToHaveSuper v "constructor" base) } rest
    else if k = "extend" then defineLoop base st rest
    else if k = "include" then defineLoop base st rest
    else if k = "static" then
      defineLoop base { st with statics := copyStatics v st.statics } rest
    else if k = "super" then .error .reservedNameError
    else if isFunction v then
      defineLoop base
        { st with protoProps := setProp st.protoProps k (wrapMethodToHaveSuper v k base) } rest
    else
      defineLoop base { st with protoProps := setProp st.protoProps k v } rest

/-- Step 3 of `create` for one mixin (source lines 224-231): create an
unconstructed instance of the mixin class and deep-copy every enumerable
property found along its prototype chain onto the new prototype.  A value
without a usable `.prototype` makes `Object.create` raise the host
`TypeError`. -/
def applyMixin (w : World) (proto : List (String × Value)) (inc : Value) :
    Except JsError (List (String × Value)) :=
  match inc with
  | .classFn m => .ok ((chainEnum w m).foldl (fun acc kv => setProp acc kv.1 kv.2) proto)
  | _ => .error .typeError

/-- Step 3 of `create`, folded over the whole `include` list in declared
order. -/
def applyMixins (w : World) (proto : List (String × Value)) :
    List Value → Except JsError (List (String × Value))
  | [] => .ok proto
  | inc :: rest =>
    match applyMixin w proto inc with
    | .error e => .error e
    | .ok proto2 => applyMixins w proto2 rest

/-- `create(definition)` (source lines 172-288).  The result is the extended
world together with the index of the new class, or the error raised.  The
steps mirror the source: resolve the base and default the `initialize`
variable to the base constructor, apply the mixins, run the define loop, and
finally set `Class.prototype.constructor = Class`. -/
def create (w : World) (defnRaw : List (String × Value)) :
    Except JsError (World × Nat) :=
  let defn := dedupKeys defnRaw
  let inherited : Except JsError (ClazzD × Option Nat) :=
    match (lookupProp defn "extend").getD .undef with
    | .undef =>
      .ok ({ protoProps := [], protoParent := none, statics := [],
             includes := none, initializer := none }, none)
    | .classFn b =>
      .ok ({ protoProps := [], protoParent := some b, statics := [],
             includes := none, initializer := some (protoGet w b "constructor") }, some b)
    | _ => .error .typeError
  match inherited with
  | .error e => .error e
  | .ok (st0, base) =>
    let includesV := (lookupProp defn "include").getD .undef
    let includesL : Option (List Value) :=
      match includesV with
      | .undef => none
      | .arr xs => some xs
      | _ => some []
    match applyMixins w st0.protoProps (includesL.getD []) with
    | .error e => .error e
    | .ok proto1 =>
      match defineLoop base { st0 with protoProps := proto1, includes := includesL } defn with
      | .error e => .error e
      | .ok st2 =>
        let cid := w.length
        .ok (w ++ [{ st2 with
                     protoProps := setProp st2.protoProps "constructor" (.classFn cid) }], cid)

/-- Outcome of running a piece of code: the final instance state together with
a returned value or a raised error. -/
inductive Outcome where
  | ok (i : Inst) (v : Value)
  | thrown (i : Inst) (e : JsError)

/-- Outcome of evaluating a list of argument expressions. -/
inductive ArgsOut where
  | ok (i : Inst) (vs : List Value)
  | thrown (i : Inst) (e : JsError)

/-- Constant literals as values. -/
def Lit.toValue : Lit → Value
  | .undef => .undef
  | .str s => .vStr s
  | .nat n => .vNat n
  | .bool b => .vBool b

mutual

/-- Invocation of a function value as `f.apply(this, args)`.  The
`wrappedFn` case is the body of the closure returned by
`wrapMethodToHaveSuper` (source lines 143-163): save the current dispatch
handle, rebind `this.super` to `base.prototype[signature] || noSuper`, run
the member, and restore the handle whether the member returned or threw (the
`try`/`finally`). -/
def callFn : Nat → World → Inst → Value → List Value → Option Outcome
  | 0, _, _, _, _ => none
  | fuel + 1, w, i, f, args =>
    match f with
    | .plainFn b => evalBody fuel w i args b
    | .wrappedFn m sig base =>
      let tmp := instGet w i "super"
      let target := protoGetOfBase w base sig
      let i1 := instSet i "super" (if isTruthy target then target else .noSuperFn)
      (match callFn fuel w i1 m args with
       | none => none
       | some (.ok i2 v) => some (.ok (instSet i2 "super" tmp) v)
       | some (.thrown i2 e) => some (.thrown (instSet i2 "super" tmp) e))
    | .classFn cid => runCtor fuel w i cid args
    | .objectFn => some (.ok i .emptyObj)
    | .noSuperFn => some (.thrown i .noSuperclassMethodError)
    | .nativeFn n => some (.ok i (if n = "toString" then .vStr "[object Object]" else .undef))
    | _ => some (.thrown i .typeError)

/-- The `Class` constructor body (source lines 183-199): run the constructors
of the included classes, each with zero arguments, then the resolved
`initialize` variable with all the constructor's arguments.  The body itself
returns `undefined`. -/
def runCtor : Nat → World → Inst → Nat → List Value → Option Outcome
  | 0, _, _, _, _ => none
  | fuel + 1, w, i, cid, args =>
    match w[cid]? with
    | none => some (.thrown i .typeError)
    | some d =>
      (match runIncludes fuel w i (d.includes.getD []) with
       | none => none
       | some (.thrown i2 e) => some (.thrown i2 e)
       | some (.ok i2 _) =>
         match d.initializer with
         | none => some (.ok i2 .undef)
         | some f =>
           match callFn fuel w i2 f args with
           | none => none
           | some (.thrown i3 e) => some (.thrown i3 e)
           | some (.ok i3 _) => some (.ok i3 .undef))

/-- The include loop of the `Class` constructor: `includes[i].call(this)` in
declared order, stopping at the first raised error. -/
def runIncludes : Nat → World → Inst → List Value → Option Outcome
  | 0, _, _, _ => none
  | _fuel + 1, _w, i, [] => some (.ok i .undef)
  | fuel + 1, w, i, inc :: rest =>
    (match callFn fuel w i inc [] with
     | none => none
     | some (.thrown i2 e) => some (.thrown i2 e)
     | some (.ok i2 _) => runIncludes fuel w i2 rest)

/-- Evaluation of a method body on `this = i` with the given arguments. -/
def evalBody : Nat → World → Inst → List Value → Body → Option Outcome
  | 0, _, _, _, _ => none
  | fuel + 1, w, i, args, b =>
    match b with
    | .lit l => some (.ok i l.toValue)
    | .arg k => some (.ok i (args.getD k .undef))
    | .getThis n => some (.ok i (instGet w i n))
    | .setThis n e =>
      (match evalBody fuel w i args e with
       | none => none
       | some (.thrown i2 er) => some (.thrown i2 er)
       | some (.ok i2 v) => some (.ok (instSet i2 n v) v))
    | .seq a c =>
      (match evalBody fuel w i args a with
       | none => none
       | some (.thrown i2 er) => some (.thrown i2 er)
       | some (.ok i2 _) => evalBody fuel w i2 args c)
    | .callOnThis n es =>
      let f := instGet w i n
      (match evalArgs fuel w i args es with
       | none => none
       | some (.thrown i2 er) => some (.thrown i2 er)
       | some (.ok i2 vs) => callFn fuel w i2 f vs)
    | .concat a c =>
      (match evalBody fuel w i args a with
       | none => none
       | some (.thrown i2 er) => some (.thrown i2 er)
       | some (.ok i2 v1) =>
         match evalBody fuel w i2 args c with
         | none => none
         | some (.thrown i3 er) => some (.thrown i3 er)
         | some (.ok i3 v2) =>
           match v1, v2 with
           | .vStr s, .vStr t => some (.ok i3 (.vStr (s ++ t)))
           | _, _ => some (.thrown i3 .typeError))
    | .throwErr => some (.thrown i .userError)

/-- Left-to-right evaluation of argument expressions. -/
def evalArgs : Nat → World → Inst → List Value → List Body → Option ArgsOut
  | 0, _, _, _, _ => none
  | _fuel + 1, _w, i, _args, [] => some (.ok i [])
  | fuel + 1, w, i, args, e :: es =>
    (match evalBody fuel w i args e with
     | none => none
     | some (.thrown i2 er) => some (.thrown i2 er)
     | some (.ok i2 v) =>
       match evalArgs fuel w i2 args es with
       | none => none
       | some (.thrown i3 er) => some (.thrown i3 er)
       | some (.ok i3 vs) => some (.ok i3 (v :: vs)))

end

/-- `new C(args)`: allocate a fresh instance whose prototype is
`C.prototype`, run the `Class` constructor on it, and (because the
constructor body returns `undefined`) hand the instance back in the
outcome's state. -/
def newInstance (fuel : Nat) (w : World) (cid : Nat) (args : List Value) :
    Option Outcome :=
  callFn fuel w { cls := cid, props := [] } (.classFn cid) args

/-- `i.n(args)`: look the method up on the instance and invoke it. -/
def invokeMethod (fuel : Nat) (w : World) (i : Inst) (n : String)
    (args : List Value) : Option Outcome :=
  callFn fuel w i (instGet w i n) args

/-- The world after a successful `create`, the original world otherwise;
convenient for chaining concrete class creations. -/
def createW (w : World) (defn : List (String × Value)) : World :=
  match create w defn with
  | .ok p => p.1
  | .error _ => w

/-- Recognizer for class-descriptor values. -/
def isClassVal : Value → Bool
  | .classFn _ => true
  | _ => false

/-- The base reference `create` resolves from a definition. -/
def extendRef (defn : List (String × Value)) : Option Nat :=
  match (lookupProp defn "extend").getD .undef with
  | .classFn b => some b
  | _ => none

/-- The `includes` value captured by the constructor closure: absent when the
definition has no `include` key, the array when it is one, and an empty run
for any other value (whose `.length` is `undefined`, so both loops run zero
times). -/
def includeList (defn : List (String × Value)) : Option (List Value) :=
  match (lookupProp defn "include").getD .undef with
  | .undef => none
  | .arr xs => some xs
  | _ => some []

/-- All entries of the effective `include` run are class descriptors, so that
step 3 raises no host error. -/
def includeOK (defn : List (String × Value)) : Bool :=
  ((includeList defn).getD []).all isClassVal

/-- The accumulated effect of step 3 on the new prototype's own properties. -/
def mixFold (w : World) (proto : List (String × Value)) :
    List Value → List (String × Value)
  | [] => proto
  | inc :: rest =>
    match inc with
    | .classFn c => mixFold w ((chainEnum w c).foldl (fun acc kv => setProp acc kv.1 kv.2) proto) rest
    | _ => mixFold w proto rest

/-- The value one `include` entry contributes for a property name: the
most-derived enumerable binding on the mixin's prototype chain, nothing for
a non-class entry. -/
def mixinContrib (w : World) (n : String) : Value → Option Value
  | .classFn c => lookupProp (chainEnum w c) n
  | _ => none

/-- The value a property name ends up bound to after the mixin copying of
step 3, searching the `include` list right-to-left (later mixins overwrite
earlier ones). -/
def mixinsGet (w : World) (n : String) : List Value → Option Value
  | [] => none
  | inc :: rest =>
    match mixinsGet w n rest with
    | some v => some v
    | none => mixinContrib w n inc

/-- The dispatch-handle value installed for the duration of a wrapped method
body: `base.prototype[signature] || noSuper`. -/
def superBinding (w : World) (base : Option Nat) (sig : String) : Value :=
  let target := protoGetOfBase w base sig
  if isTruthy target then target else .noSuperFn

/-- Did a run raise `NoSuperclassMethodError`? -/
def raisedNoSuper : Option Outcome → Bool
  | some (.thrown _ .noSuperclassMethodError) => true
  | _ => false

/-- External prototype mutation after creation:
`cid.prototype[n] = v`, as a caller can do at any time. -/
def injectMethod (w : World) (cid : Nat) (n : String) (v : Value) : World :=
  match w[cid]? with
  | none => w
  | some d => w.set cid { d with protoProps := setProp d.protoProps n v }

/-- The instance state a run ends in. -/
def finalInstOf : Option Outcome → Option Inst
  | some (.ok i _) => some i
  | some (.thrown i _) => some i
  | none => none

/-- Mixin-dispatch scenario, parametric in the body of the mixin's method:
class 0 (`Base1`) has `m` returning `'fromMixinBase'`; class 1 (`M`) extends
`Base1` and declares `m` with the given body; class 2 (`Base2`) has `m`
returning `'fromIncludingBase'`; class 3 (`C`) extends `Base2` and includes
`M`. -/
def mixinScenarioW (bodyM : Body) : World :=
  createW (createW (createW (createW []
    [("m", .plainFn (.lit (.str "fromMixinBase")))])
    [("extend", .classFn 0), ("m", .plainFn bodyM)])
    [("m", .plainFn (.lit (.str "fromIncludingBase")))])
    [("extend", .classFn 2), ("include", .arr [.classFn 1])]

/-- The mixin-dispatch scenario with `M`'s `m` being
`function () \x7b return this.super(); \x7d`. -/
def wMixinSuper : World := mixinScenarioW (.callOnThis "super" [])

/-- A class with no `extend` whose initializer calls `this.super()`. -/
def wNoExtendInit : World :=
  createW [] [("initialize", .plainFn (.callOnThis "super" []))]

/-- Late-injection scenario: class 0 (`B`) has no method `m`; class 1 (`C`)
extends `B` and declares `m` as `function () \x7b return this.super(); \x7d`. -/
def wLate : World :=
  createW (createW [] [("x", .vNat 1)])
    [("extend", .classFn 0), ("m", .plainFn (.callOnThis "super" []))]

/-- Constructor-order scenario: mixin `A` (class 0) sets `last := 'A'`;
mixin `B` (class 1) records `ab := this.last` then sets `last := 'B'`;
class 2 includes `[A, B]` and its own initializer records
`ownSee := this.last` then sets `last := 'own'`. -/
def wCtorOrder : World :=
  createW (createW (createW []
    [("initialize", .plainFn (.setThis "last" (.lit (.str "A"))))])
    [("initialize", .plainFn (.seq (.setThis "ab" (.getThis "last"))
        (.setThis "last" (.lit (.str "B")))))])
    [("include", .arr [.classFn 0, .classFn 1]),
     ("initialize", .plainFn (.seq (.setThis "ownSee" (.getThis "last"))
        (.setThis "last" (.lit (.str "own")))))]

/-- Argument-forwarding scenario: mixin `M` (class 0) records its first
constructor argument in `m0`; class 1 includes `[M]` and its initializer
records its first argument in `o0`. -/
def wArgFwd : World :=
  createW (createW []
    [("initialize", .plainFn (.setThis "m0" (.arg 0)))])
    [("include", .arr [.classFn 0]),
     ("initialize", .plainFn (.setThis "o0" (.arg 0)))]

/-- The `extend` entry, when present, is a class descriptor (or absent
altogether), so that step 2 raises no host error.  This is the data-model
well-formedness assumption of the spec. -/
def extendOK (defn : List (String × Value)) : Bool :=
  match (lookupProp defn "extend").getD .undef with
  | .undef => true
  | .classFn _ => true
  | _ => false

/-- The result a `new` expression observes: the constructor body returns
`undefined`, so `new` keeps the (possibly mutated) instance and discards the
value. -/
def asCtorResult : Option Outcome → Option Outcome
  | none => none
  | some (.ok i _) => some (.ok i .undef)
  | some (.thrown i e) => some (.thrown i e)

/-- The empty class descriptor, used only as a `getD` fallback. -/
def emptyClazzD : ClazzD :=
  { protoProps := [], protoParent := none, statics := [],
    includes := none, initializer := none }

/-- Statics scenario: class 0 has a static `qux`, class 1 a static `mix`,
class 2 extends class 0, includes class 1, and declares only the static
`own`. -/
def wStatics3 : World :=
  createW (createW (createW []
    [("static", .objLit [("qux", .plainFn (.lit (.str "qux")))])])
    [("static", .objLit [("mix", .plainFn (.lit (.str "mix")))])])
    [("extend", .classFn 0), ("include", .arr [.classFn 1]),
     ("static", .objLit [("own", .vNat 7)])]

/-- The descriptor of class 2 of `wStatics3`. -/
def dStatics3 : ClazzD := (wStatics3[2]?).getD emptyClazzD

/-- A base whose initializer sets `this.foo = 'foo'`. -/
def wBaseFoo : World :=
  createW [] [("initialize", .plainFn (.setThis "foo" (.lit (.str "foo"))))]

/-- A subclass of `wBaseFoo`'s class with no own initializer. -/
def wSubFoo : World := createW wBaseFoo [("extend", .classFn 0)]

/-- The descriptor of the subclass in `wSubFoo`. -/
def dSubFoo : ClazzD := (wSubFoo[1]?).getD emptyClazzD

/-- The descriptor of class 1 of `wLate`. -/
def dLate : ClazzD := (wLate[1]?).getD emptyClazzD

/-- The descriptor of class 1 of `wArgFwd`. -/
def dArgFwd : ClazzD := (wArgFwd[1]?).getD emptyClazzD

/-- First stage of the mixin-dispatch scenario: just `Base1` (class 0). -/
def wMixB1 : World := createW [] [("m", .plainFn (.lit (.str "fromMixinBase")))]

/-- Second stage: `M` (class 1), extending `Base1` and declaring `m` as
`function () \x7b return this.super(); \x7d`. -/
def wMixM : World :=
  createW wMixB1 [("extend", .classFn 0), ("m", .plainFn (.callOnThis "super" []))]

/-- The descriptor of `Base2` (class 2 of the mixin-dispatch scenario),
created after `M`. -/
def dMixBase2 : ClazzD :=
  ((createW wMixM [("m", .plainFn (.lit (.str "fromIncludingBase")))])[2]?).getD
    emptyClazzD

/-- The spec's `Baz` scenario: class 0 is `Foo`-like with a static `qux` and
an instance method, class 1 includes it with no `extend`. -/
def wBazStyle : World :=
  createW (createW []
    [("static", .objLit [("qux", .plainFn (.lit (.str "qux")))]),
     ("bar", .plainFn (.lit (.str "bar")))])
    [("include", .arr [.classFn 0]), ("moo", .plainFn (.lit (.str "moo")))]

/-- The descriptor of class 1 of `wBazStyle`. -/
def dBazStyle : ClazzD := (wBazStyle[1]?).getD emptyClazzD


section AssocLemmas

theorem lookupProp_setProp_self (l : List (String × Value)) (n : String) (v : Value) :
    lookupProp (setProp l n v) n = some v := by
  induction l with
  | nil => simp [setProp, lookupProp]
  | cons kv rest ih =>
    by_cases h : kv.1 = n
    · simp [setProp, h, lookupProp]
    · simp [setProp, h, lookupProp, ih]

theorem lookupProp_setProp_ne (l : List (String × Value)) (n m : String) (v : Value)
    (h : m ≠ n) : lookupProp (setProp l n v) m = lookupProp l m := by
  induction l with
  | nil => simp [setProp, lookupProp, Ne.symm h]
  | cons kv rest ih =>
    obtain ⟨k, u⟩ := kv
    by_cases hk : k = n
    · subst hk
      simp [setProp, lookupProp, Ne.symm h]
    · simp [setProp, hk, lookupProp, ih]

theorem lookupProp_eq_none_iff (l : List (String × Value)) (n : String) :
    lookupProp l n = none ↔ n ∉ l.map Prod.fst := by
  induction l with
  | nil => simp [lookupProp]
  | cons kv rest ih =>
    by_cases h : kv.1 = n
    · simp [lookupProp, h]
    · simp [lookupProp, h, ih, Ne.symm h]

theorem lookupProp_filterKey_ne (l : List (String × Value)) (n k : String) (h : n ≠ k) :
    lookupProp (l.filter (fun kv => !(kv.1 == k))) n = lookupProp l n := by
  induction l with
  | nil => simp
  | cons kv rest ih =>
    obtain ⟨kk, u⟩ := kv
    by_cases hk : kk = k
    · subst hk
      have hn : ¬ (kk = n) := fun hh => h hh.symm
      simp [List.filter_cons, lookupProp, hn, ih]
    · by_cases hn : kk = n
      · simp [List.filter_cons, hk, lookupProp, hn, h]
      · simp [List.filter_cons, hk, lookupProp, hn, ih]

theorem lookupProp_dedupKeys (l : List (String × Value)) (n : String) :
    lookupProp (dedupKeys l) n = lookupProp l n := by
  induction l with
  | nil => simp [dedupKeys]
  | cons kv rest ih =>
    by_cases h : kv.1 = n
    · simp [dedupKeys, lookupProp, h]
    · rw [dedupKeys]
      show lookupProp ((kv.1, kv.2) :: _) n = _
      rw [lookupProp, if_neg h, lookupProp_filterKey_ne _ _ _ (Ne.symm h), ih,
        lookupProp, if_neg h]

theorem keys_dedupKeys_nodup (l : List (String × Value)) :
    ((dedupKeys l).map Prod.fst).Nodup := by
  induction l with
  | nil => simp [dedupKeys]
  | cons kv rest ih =>
    obtain ⟨k, u⟩ := kv
    rw [dedupKeys, List.map_cons, List.nodup_cons]
    constructor
    · intro hmem
      rcases List.mem_map.mp hmem with ⟨p, hp, hfst⟩
      have hcond := List.of_mem_filter hp
      rw [hfst] at hcond
      simp at hcond
    · exact ((List.filter_sublist (dedupKeys rest)).map Prod.fst).nodup ih

theorem mem_keys_dedupKeys (l : List (String × Value)) (n : String) :
    n ∈ (dedupKeys l).map Prod.fst ↔ n ∈ l.map Prod.fst := by
  rw [← not_iff_not, ← lookupProp_eq_none_iff, ← lookupProp_eq_none_iff,
    lookupProp_dedupKeys]

theorem dedupKeys_keeps_super (l : List (String × Value))
    (h : "super" ∈ l.map Prod.fst) : "super" ∈ (dedupKeys l).map Prod.fst :=
  (mem_keys_dedupKeys l "super").mpr h

theorem lookupProp_foldl_setProp (pairs : List (String × Value))
    (hnd : (pairs.map Prod.fst).Nodup) (acc : List (String × Value)) (n : String) :
    lookupProp (pairs.foldl (fun t kv => setProp t kv.1 kv.2) acc) n
      = (lookupProp pairs n).or (lookupProp acc n) := by
  induction pairs generalizing acc with
  | nil => simp [lookupProp]
  | cons kv rest ih =>
    rw [List.map_cons, List.nodup_cons] at hnd
    rw [List.foldl_cons, ih hnd.2]
    by_cases h : kv.1 = n
    · have hrest : lookupProp rest n = none :=
        (lookupProp_eq_none_iff rest n).mpr (h ▸ hnd.1)
      rw [hrest, lookupProp, if_pos h]
      subst h
      rw [lookupProp_setProp_self]
      rfl
    · rw [lookupProp, if_neg h, lookupProp_setProp_ne _ _ _ _ (Ne.symm h)]

end AssocLemmas

section WorldLemmas

theorem protoGetGo_fuel_irrel (w : World) (n : String) :
    ∀ fuel1 fuel2 cid, cid < fuel1 → cid < fuel2 →
      protoGetGo w fuel1 cid n = protoGetGo w fuel2 cid n := by
  intro fuel1
  induction fuel1 with
  | zero =>
    intro fuel2 cid h1 _
    exact absurd h1 (Nat.not_lt_zero cid)
  | succ f1 ih =>
    intro fuel2 cid h1 h2
    cases fuel2 with
    | zero => exact absurd h2 (Nat.not_lt_zero cid)
    | succ f2 =>
      rw [protoGetGo, protoGetGo]
      cases hd : w[cid]? with
      | none => rfl
      | some d =>
        dsimp only
        cases hl : lookupProp d.protoProps n with
        | some v => rfl
        | none =>
          dsimp only
          cases hp : d.protoParent with
          | none => rfl
          | some p =>
            dsimp only
            by_cases hlt : p < cid
            · rw [if_pos hlt, if_pos hlt]
              exact ih f2 p (lt_of_lt_of_le hlt (Nat.lt_succ_iff.mp h1))
                (lt_of_lt_of_le hlt (Nat.lt_succ_iff.mp h2))
            · rw [if_neg hlt, if_neg hlt]

/-- One-step unfolding of `protoGet`, phrased with `protoGet` itself in the
recursive position. -/
theorem protoGet_eq (w : World) (cid : Nat) (n : String) :
    protoGet w cid n =
      match w[cid]? with
      | none => .undef
      | some d =>
        match lookupProp d.protoProps n with
        | some v => v
        | none =>
          match d.protoParent with
          | none => objectProtoGet n
          | some p => if p < cid then protoGet w p n else .undef := by
  rw [protoGet, protoGetGo]
  cases hd : w[cid]? with
  | none => rfl
  | some d =>
    dsimp only
    cases hl : lookupProp d.protoProps n with
    | some v => rfl
    | none =>
      dsimp only
      cases hp : d.protoParent with
      | none => rfl
      | some p =>
        dsimp only
        by_cases hlt : p < cid
        · rw [if_pos hlt, if_pos hlt]
          exact protoGetGo_fuel_irrel w n cid (p + 1) p hlt (Nat.lt_succ_self p)
        · rw [if_neg hlt, if_neg hlt]

theorem protoGetGo_append (w tail : World) (n : String) :
    ∀ fuel cid, cid < w.length →
      protoGetGo (w ++ tail) fuel cid n = protoGetGo w fuel cid n := by
  intro fuel
  induction fuel with
  | zero =>
    intro cid _
    rfl
  | succ f ih =>
    intro cid h
    have hw : (w ++ tail)[cid]? = w[cid]? := by
      rw [List.getElem?_append, if_pos h]
    rw [protoGetGo, protoGetGo, hw]
    cases hd : w[cid]? with
    | none => rfl
    | some d =>
      dsimp only
      cases hl : lookupProp d.protoProps n with
      | some v => rfl
      | none =>
        dsimp only
        cases hp : d.protoParent with
        | none => rfl
        | some p =>
          dsimp only
          by_cases hlt : p < cid
          · rw [if_pos hlt, if_pos hlt]
            exact ih p (lt_trans hlt h)
          · rw [if_neg hlt, if_neg hlt]

theorem protoGet_append (w tail : World) (n : String) :
    ∀ cid, cid < w.length → protoGet (w ++ tail) cid n = protoGet w cid n :=
  fun cid h => protoGetGo_append w tail n (cid + 1) cid h

theorem chainEnumGo_keys_nodup (w : World) :
    ∀ fuel cid, ((chainEnumGo w fuel cid).map Prod.fst).Nodup := by
  intro fuel
  induction fuel with
  | zero =>
    intro cid
    simp [chainEnumGo]
  | succ f ih =>
    intro cid
    rw [chainEnumGo]
    cases hd : w[cid]? with
    | none => simp
    | some d =>
      dsimp only
      cases hp : d.protoParent with
      | none => exact keys_dedupKeys_nodup _
      | some p =>
        dsimp only
        by_cases hlt : p < cid
        · rw [if_pos hlt, List.map_append]
          refine List.Nodup.append (keys_dedupKeys_nodup _)
            (((List.filter_sublist _).map Prod.fst).nodup (ih p)) ?_
          intro a ha hb
          rcases List.mem_map.mp hb with ⟨q, hq, hqa⟩
          have hcond := List.of_mem_filter hq
          rw [hqa] at hcond
          have hnone : lookupProp (dedupKeys d.protoProps) a = none := by
            cases hl : lookupProp (dedupKeys d.protoProps) a with
            | none => rfl
            | some v => rw [hl] at hcond; simp [Option.isNone] at hcond
          exact absurd ha ((lookupProp_eq_none_iff _ _).mp hnone)
        · rw [if_neg hlt]
          exact keys_dedupKeys_nodup _

theorem chainEnum_keys_nodup (w : World) (cid : Nat) :
    ((chainEnum w cid).map Prod.fst).Nodup :=
  chainEnumGo_keys_nodup w (cid + 1) cid

end WorldLemmas

section DefineLoopLemmas

theorem defineLoop_fields (base : Option Nat) (props : List (String × Value)) :
    ∀ st st', defineLoop base st props = .ok st' →
      st'.protoParent = st.protoParent ∧ st'.includes = st.includes := by
  induction props with
  | nil =>
    intro st st' h
    rw [defineLoop] at h
    cases h
    exact ⟨rfl, rfl⟩
  | cons kv rest ih =>
    intro st st' h
    obtain ⟨k, v⟩ := kv
    rw [defineLoop] at h
    split_ifs at h with h1 h2 h3 h4 h5 h6
    · have hx := ih _ _ h; exact hx
    · have hx := ih _ _ h; exact hx
    · have hx := ih _ _ h; exact hx
    · have hx := ih _ _ h; exact hx
    · have hx := ih _ _ h; exact hx
    · have hx := ih _ _ h; exact hx

theorem defineLoop_protoProps_stable (base : Option Nat)
    (props : List (String × Value)) (m : String) (hm : m ∉ props.map Prod.fst) :
    ∀ st st', defineLoop base st props = .ok st' →
      lookupProp st'.protoProps m = lookupProp st.protoProps m := by
  induction props with
  | nil =>
    intro st st' h
    rw [defineLoop] at h
    cases h
    rfl
  | cons kv rest ih =>
    intro st st' h
    obtain ⟨k, v⟩ := kv
    rw [List.map_cons, List.mem_cons, not_or] at hm
    rw [defineLoop] at h
    split_ifs at h with h1 h2 h3 h4 h5 h6
    · have hx := ih hm.2 _ _ h; exact hx
    · have hx := ih hm.2 _ _ h; exact hx
    · have hx := ih hm.2 _ _ h; exact hx
    · have hx := ih hm.2 _ _ h; exact hx
    · have hx := ih hm.2 _ _ h
      rw [hx]
      exact lookupProp_setProp_ne _ _ _ _ hm.1
    · have hx := ih hm.2 _ _ h
      rw [hx]
      exact lookupProp_setProp_ne _ _ _ _ hm.1

theorem defineLoop_statics_stable (base : Option Nat)
    (props : List (String × Value)) (hm : "static" ∉ props.map Prod.fst) :
    ∀ st st', defineLoop base st props = .ok st' → st'.statics = st.statics := by
  induction props with
  | nil =>
    intro st st' h
    rw [defineLoop] at h
    cases h
    rfl
  | cons kv rest ih =>
    intro st st' h
    obtain ⟨k, v⟩ := kv
    rw [List.map_cons, List.mem_cons, not_or] at hm
    rw [defineLoop] at h
    split_ifs at h with h1 h2 h3 h4 h5 h6
    · have hx := ih hm.2 _ _ h; exact hx
    · have hx := ih hm.2 _ _ h; exact hx
    · have hx := ih hm.2 _ _ h; exact hx
    · exact absurd h4.symm hm.1
    · have hx := ih hm.2 _ _ h; exact hx
    · have hx := ih hm.2 _ _ h; exact hx

theorem defineLoop_initializer_stable (base : Option Nat)
    (props : List (String × Value)) (hm : "initialize" ∉ props.map Prod.fst) :
    ∀ st st', defineLoop base st props = .ok st' →
      st'.initializer = st.initializer := by
  induction props with
  | nil =>
    intro st st' h
    rw [defineLoop] at h
    cases h
    rfl
  | cons kv rest ih =>
    intro st st' h
    obtain ⟨k, v⟩ := kv
    rw [List.map_cons, List.mem_cons, not_or] at hm
    rw [defineLoop] at h
    split_ifs at h with h1 h2 h3 h4 h5 h6
    · exact absurd h1.symm hm.1
    · have hx := ih hm.2 _ _ h; exact hx
    · have hx := ih hm.2 _ _ h; exact hx
    · have hx := ih hm.2 _ _ h; exact hx
    · have hx := ih hm.2 _ _ h; exact hx
    · have hx := ih hm.2 _ _ h; exact hx

theorem defineLoop_protoProps_lookup (base : Option Nat)
    (props : List (String × Value)) (m : String)
    (hnd : (props.map Prod.fst).Nodup)
    (hm1 : m ≠ "initialize") (hm2 : m ≠ "extend") (hm3 : m ≠ "include")
    (hm4 : m ≠ "static") (hm5 : m ≠ "super") :
    ∀ st st', defineLoop base st props = .ok st' →
      lookupProp st'.protoProps m =
        match lookupProp props m with
        | some v => some (if isFunction v then wrapMethodToHaveSuper v m base else v)
        | none => lookupProp st.protoProps m := by
  induction props with
  | nil =>
    intro st st' h
    rw [defineLoop] at h
    cases h
    rfl
  | cons kv rest ih =>
    intro st st' h
    obtain ⟨k, v⟩ := kv
    rw [List.map_cons, List.nodup_cons] at hnd
    by_cases hk : k = m
    · subst hk
      rw [defineLoop, if_neg hm1, if_neg hm2, if_neg hm3, if_neg hm4, if_neg hm5] at h
      have hrest : k ∉ rest.map Prod.fst := hnd.1
      by_cases hf : isFunction v
      · rw [if_pos hf] at h
        rw [defineLoop_protoProps_stable base rest k hrest _ _ h,
          lookupProp_setProp_self]
        simp [lookupProp, hf]
      · rw [if_neg hf] at h
        rw [defineLoop_protoProps_stable base rest k hrest _ _ h,
          lookupProp_setProp_self]
        simp [lookupProp, hf]
    · have hcons : lookupProp ((k, v) :: rest) m = lookupProp rest m := by
        rw [lookupProp, if_neg hk]
      rw [defineLoop] at h
      split_ifs at h with h1 h2 h3 h4 h5 h6
      · have hx := ih hnd.2 _ _ h
        rw [hcons]
        exact hx
      · have hx := ih hnd.2 _ _ h
        rw [hcons]
        exact hx
      · have hx := ih hnd.2 _ _ h
        rw [hcons]
        exact hx
      · have hx := ih hnd.2 _ _ h
        rw [hcons]
        exact hx
      · have hx := ih hnd.2 _ _ h
        rw [hcons, hx]
        cases hrm : lookupProp rest m with
        | some u => rfl
        | none =>
          dsimp only
          exact lookupProp_setProp_ne _ _ _ _ (fun hh => hk hh.symm)
      · have hx := ih hnd.2 _ _ h
        rw [hcons, hx]
        cases hrm : lookupProp rest m with
        | some u => rfl
        | none =>
          dsimp only
          exact lookupProp_setProp_ne _ _ _ _ (fun hh => hk hh.symm)

theorem defineLoop_statics_lookup (base : Option Nat)
    (props : List (String × Value)) (hnd : (props.map Prod.fst).Nodup) :
    ∀ st st', defineLoop base st props = .ok st' →
      st'.statics =
        match lookupProp props "static" with
        | some v => copyStatics v st.statics
        | none => st.statics := by
  induction props with
  | nil =>
    intro st st' h
    rw [defineLoop] at h
    cases h
    rfl
  | cons kv rest ih =>
    intro st st' h
    obtain ⟨k, v⟩ := kv
    rw [List.map_cons, List.nodup_cons] at hnd
    rw [defineLoop] at h
    split_ifs at h with h1 h2 h3 h4 h5 h6
    · subst h1
      have hx := ih hnd.2 _ _ h
      rw [hx]
      simp [lookupProp]
    · subst h2
      have hx := ih hnd.2 _ _ h
      rw [hx]
      simp [lookupProp]
    · subst h3
      have hx := ih hnd.2 _ _ h
      rw [hx]
      simp [lookupProp]
    · subst h4
      have hst : "static" ∉ rest.map Prod.fst := hnd.1
      rw [defineLoop_statics_stable base rest hst _ _ h]
      simp [lookupProp]
    · have hx := ih hnd.2 _ _ h
      rw [hx, lookupProp, if_neg h4]
    · have hx := ih hnd.2 _ _ h
      rw [hx, lookupProp, if_neg h4]

theorem defineLoop_initializer_lookup (base : Option Nat)
    (props : List (String × Value)) (hnd : (props.map Prod.fst).Nodup) :
    ∀ st st', defineLoop base st props = .ok st' →
      st'.initializer =
        match lookupProp props "initialize" with
        | some v => some (wrapMethodToHaveSuper v "constructor" base)
        | none => st.initializer := by
  induction props with
  | nil =>
    intro st st' h
    rw [defineLoop] at h
    cases h
    rfl
  | cons kv rest ih =>
    intro st st' h
    obtain ⟨k, v⟩ := kv
    rw [List.map_cons, List.nodup_cons] at hnd
    rw [defineLoop] at h
    split_ifs at h with h1 h2 h3 h4 h5 h6
    · subst h1
      have hini : "initialize" ∉ rest.map Prod.fst := hnd.1
      rw [defineLoop_initializer_stable base rest hini _ _ h]
      simp [lookupProp]
    · subst h2
      have hx := ih hnd.2 _ _ h
      rw [hx]
      simp [lookupProp]
    · subst h3
      have hx := ih hnd.2 _ _ h
      rw [hx]
      simp [lookupProp]
    · subst h4
      have hx := ih hnd.2 _ _ h
      rw [hx]
      simp [lookupProp]
    · have hx := ih hnd.2 _ _ h
      rw [hx, lookupProp, if_neg h1]
    · have hx := ih hnd.2 _ _ h
      rw [hx, lookupProp, if_neg h1]

theorem defineLoop_ok (base : Option Nat) (props : List (String × Value))
    (h : "super" ∉ props.map Prod.fst) :
    ∀ st, ∃ st', defineLoop base st props = .ok st' := by
  induction props with
  | nil =>
    intro st
    exact ⟨st, rfl⟩
  | cons kv rest ih =>
    intro st
    obtain ⟨k, v⟩ := kv
    rw [List.map_cons, List.mem_cons, not_or] at h
    rw [defineLoop]
    split_ifs with h1 h2 h3 h4 h5 h6
    · exact ih h.2 _
    · exact ih h.2 _
    · exact ih h.2 _
    · exact ih h.2 _
    · exact absurd h5.symm h.1
    · exact ih h.2 _
    · exact ih h.2 _

theorem defineLoop_super_error (base : Option Nat) (props : List (String × Value))
    (h : "super" ∈ props.map Prod.fst) :
    ∀ st, defineLoop base st props = .error .reservedNameError := by
  induction props with
  | nil => simp at h
  | cons kv rest ih =>
    intro st
    obtain ⟨k, v⟩ := kv
    rw [List.map_cons, List.mem_cons] at h
    by_cases hk : k = "super"
    · subst hk
      rfl
    · have hr : "super" ∈ rest.map Prod.fst :=
        h.resolve_left (fun hh => hk hh.symm)
      rw [defineLoop]
      split_ifs with h1 h2 h3 h4 h5
      · exact ih hr _
      · exact ih hr _
      · exact ih hr _
      · exact ih hr _
      · exact ih hr _
      · exact ih hr _

end DefineLoopLemmas

section MixinLemmas

theorem isClassVal_iff (x : Value) : isClassVal x = true ↔ ∃ c, x = .classFn c := by
  cases x <;> simp [isClassVal]

theorem applyMixins_ok (w : World) :
    ∀ (ms : List Value), (∀ x ∈ ms, ∃ c, x = Value.classFn c) →
      ∀ proto, applyMixins w proto ms = .ok (mixFold w proto ms) := by
  intro ms
  induction ms with
  | nil =>
    intro _ proto
    rfl
  | cons inc rest ih =>
    intro hall proto
    obtain ⟨c, rfl⟩ := hall inc (List.mem_cons_self _ _)
    rw [applyMixins, applyMixin, mixFold]
    exact ih (fun x hx => hall x (List.mem_cons_of_mem _ hx)) _

theorem mixFold_lookup (w : World) (n : String) :
    ∀ (ms : List Value) (proto : List (String × Value)),
      lookupProp (mixFold w proto ms) n =
        match mixinsGet w n ms with
        | some v => some v
        | none => lookupProp proto n := by
  intro ms
  induction ms with
  | nil =>
    intro proto
    rfl
  | cons inc rest ih =>
    intro proto
    cases inc with
    | classFn c =>
      simp only [mixFold, mixinsGet, mixinContrib, ih]
      cases hr : mixinsGet w n rest with
      | some v => rfl
      | none =>
        rw [lookupProp_foldl_setProp _ (chainEnum_keys_nodup w c)]
        cases lookupProp (chainEnum w c) n <;> rfl
    | undef =>
      simp only [mixFold, mixinsGet, mixinContrib, ih]
      cases hr : mixinsGet w n rest <;> rfl
    | vStr s =>
      simp only [mixFold, mixinsGet, mixinContrib, ih]
      cases hr : mixinsGet w n rest <;> rfl
    | vNat k =>
      simp only [mixFold, mixinsGet, mixinContrib, ih]
      cases hr : mixinsGet w n rest <;> rfl
    | vBool b =>
      simp only [mixFold, mixinsGet, mixinContrib, ih]
      cases hr : mixinsGet w n rest <;> rfl
    | emptyObj =>
      simp only [mixFold, mixinsGet, mixinContrib, ih]
      cases hr : mixinsGet w n rest <;> rfl
    | arr xs =>
      simp only [mixFold, mixinsGet, mixinContrib, ih]
      cases hr : mixinsGet w n rest <;> rfl
    | objLit ps =>
      simp only [mixFold, mixinsGet, mixinContrib, ih]
      cases hr : mixinsGet w n rest <;> rfl
    | plainFn b =>
      simp only [mixFold, mixinsGet, mixinContrib, ih]
      cases hr : mixinsGet w n rest <;> rfl
    | wrappedFn mm sg bb =>
      simp only [mixFold, mixinsGet, mixinContrib, ih]
      cases hr : mixinsGet w n rest <;> rfl
    | objectFn =>
      simp only [mixFold, mixinsGet, mixinContrib, ih]
      cases hr : mixinsGet w n rest <;> rfl
    | noSuperFn =>
      simp only [mixFold, mixinsGet, mixinContrib, ih]
      cases hr : mixinsGet w n rest <;> rfl
    | nativeFn nm =>
      simp only [mixFold, mixinsGet, mixinContrib, ih]
      cases hr : mixinsGet w n rest <;> rfl

end MixinLemmas

section CreateInversion

theorem create_ok_extend (w : World) (defnRaw : List (String × Value)) (b : Nat)
    (hext : lookupProp defnRaw "extend" = some (.classFn b))
    (hs : lookupProp defnRaw "super" = none)
    (hincOK : includeOK defnRaw = true) :
    ∃ st2,
      defineLoop (some b)
        { protoProps := mixFold w [] ((includeList defnRaw).getD []),
          protoParent := some b, statics := [],
          includes := includeList defnRaw,
          initializer := some (protoGet w b "constructor") }
        (dedupKeys defnRaw) = .ok st2 ∧
      create w defnRaw =
        .ok (w ++ [{ st2 with
          protoProps := setProp st2.protoProps "constructor" (.classFn w.length) }],
          w.length) := by
  have hext' : lookupProp (dedupKeys defnRaw) "extend" = some (.classFn b) := by
    rw [lookupProp_dedupKeys]
    exact hext
  have hs' : "super" ∉ (dedupKeys defnRaw).map Prod.fst := by
    rw [← lookupProp_eq_none_iff, lookupProp_dedupKeys]
    exact hs
  have hinc' : lookupProp (dedupKeys defnRaw) "include" = lookupProp defnRaw "include" :=
    lookupProp_dedupKeys _ _
  have hall : ∀ x ∈ (includeList defnRaw).getD [], ∃ c, x = Value.classFn c := by
    intro x hx
    exact (isClassVal_iff x).mp (List.all_eq_true.mp hincOK x hx)
  obtain ⟨st2, hst2⟩ := defineLoop_ok (some b) (dedupKeys defnRaw) hs'
    { protoProps := mixFold w [] ((includeList defnRaw).getD []),
      protoParent := some b, statics := [],
      includes := includeList defnRaw,
      initializer := some (protoGet w b "constructor") }
  refine ⟨st2, hst2, ?_⟩
  rw [create]
  simp only [hext', Option.getD_some]
  rw [show (match (lookupProp (dedupKeys defnRaw) "include").getD .undef with
      | .undef => (none : Option (List Value))
      | .arr xs => some xs
      | _ => some []) = includeList defnRaw by
    rw [hinc']
    rfl]
  rw [applyMixins_ok w _ hall []]
  dsimp only
  rw [hst2]

end CreateInversion

section MixinTargetLemmas

theorem lookupProp_append_left (l1 l2 : List (String × Value)) (n : String)
    (u : Value) (h : lookupProp l1 n = some u) :
    lookupProp (l1 ++ l2) n = some u := by
  induction l1 with
  | nil => simp [lookupProp] at h
  | cons kv rest ih =>
    obtain ⟨k, v⟩ := kv
    rw [List.cons_append, lookupProp]
    rw [lookupProp] at h
    by_cases hk : k = n
    · rw [if_pos hk] at h ⊢
      exact h
    · rw [if_neg hk] at h ⊢
      exact ih h

theorem chainEnumGo_append (w tail : World) :
    ∀ fuel cid, cid < w.length →
      chainEnumGo (w ++ tail) fuel cid = chainEnumGo w fuel cid := by
  intro fuel
  induction fuel with
  | zero =>
    intro cid _
    rfl
  | succ f ih =>
    intro cid h
    have hw : (w ++ tail)[cid]? = w[cid]? := by
      rw [List.getElem?_append, if_pos h]
    rw [chainEnumGo, chainEnumGo, hw]
    cases hd : w[cid]? with
    | none => rfl
    | some d =>
      dsimp only
      cases hp : d.protoParent with
      | none => rfl
      | some p =>
        dsimp only
        by_cases hlt : p < cid
        · rw [if_pos hlt, if_pos hlt, ih p (lt_trans hlt h)]
        · rw [if_neg hlt, if_neg hlt]

theorem chainEnum_append (w tail : World) (cid : Nat) (h : cid < w.length) :
    chainEnum (w ++ tail) cid = chainEnum w cid :=
  chainEnumGo_append w tail (cid + 1) cid h

theorem mixinsGet_append_of_some (w : World) (n : String) (rest : List Value)
    (u : Value) (h : mixinsGet w n rest = some u) :
    ∀ pre, mixinsGet w n (pre ++ rest) = some u := by
  intro pre
  induction pre with
  | nil => exact h
  | cons inc pre2 ih =>
    rw [List.cons_append, mixinsGet, ih]

theorem mixinsGet_none_of_each (w : World) (n : String) :
    ∀ post : List Value, (∀ x ∈ post, mixinsGet w n [x] = none) →
      mixinsGet w n post = none := by
  intro post
  induction post with
  | nil =>
    intro _
    rfl
  | cons inc rest ih =>
    intro h
    rw [mixinsGet, ih (fun x hx => h x (List.mem_cons_of_mem _ hx))]
    have h1 : mixinContrib w n inc = none := by
      have h2 := h inc (List.mem_cons_self _ _)
      rw [mixinsGet] at h2
      exact h2
    exact h1

theorem mixinsGet_cons_none (w : World) (n : String) (c : Nat) (rest : List Value)
    (h : mixinsGet w n rest = none) :
    mixinsGet w n (Value.classFn c :: rest) = lookupProp (chainEnum w c) n := by
  rw [mixinsGet, h]
  rfl

theorem lookupProp_chainEnum_own (w : World) (cid : Nat) (d : ClazzD)
    (n : String) (u : Value) (hd : w[cid]? = some d)
    (h : lookupProp d.protoProps n = some u) :
    lookupProp (chainEnum w cid) n = some u := by
  have hdedup : lookupProp (dedupKeys d.protoProps) n = some u := by
    rw [lookupProp_dedupKeys]
    exact h
  rw [chainEnum, chainEnumGo, hd]
  dsimp only
  cases hp : d.protoParent with
  | none => exact hdedup
  | some p =>
    dsimp only
    by_cases hlt : p < cid
    · rw [if_pos hlt]
      exact lookupProp_append_left _ _ _ _ hdedup
    · rw [if_neg hlt]
      exact hdedup

theorem create_ok_noextend (w : World) (defnRaw : List (String × Value))
    (hext : (lookupProp defnRaw "extend").getD .undef = .undef)
    (hs : lookupProp defnRaw "super" = none)
    (hincOK : includeOK defnRaw = true) :
    ∃ st2,
      defineLoop none
        { protoProps := mixFold w [] ((includeList defnRaw).getD []),
          protoParent := none, statics := [],
          includes := includeList defnRaw,
          initializer := none }
        (dedupKeys defnRaw) = .ok st2 ∧
      create w defnRaw =
        .ok (w ++ [{ st2 with
          protoProps := setProp st2.protoProps "constructor" (.classFn w.length) }],
          w.length) := by
  have hext' : (lookupProp (dedupKeys defnRaw) "extend").getD .undef = .undef := by
    rw [lookupProp_dedupKeys]
    exact hext
  have hs' : "super" ∉ (dedupKeys defnRaw).map Prod.fst := by
    rw [← lookupProp_eq_none_iff, lookupProp_dedupKeys]
    exact hs
  have hinc' : lookupProp (dedupKeys defnRaw) "include" = lookupProp defnRaw "include" :=
    lookupProp_dedupKeys _ _
  have hall : ∀ x ∈ (includeList defnRaw).getD [], ∃ c, x = Value.classFn c := by
    intro x hx
    exact (isClassVal_iff x).mp (List.all_eq_true.mp hincOK x hx)
  obtain ⟨st2, hst2⟩ := defineLoop_ok none (dedupKeys defnRaw) hs'
    { protoProps := mixFold w [] ((includeList defnRaw).getD []),
      protoParent := none, statics := [],
      includes := includeList defnRaw,
      initializer := none }
  refine ⟨st2, hst2, ?_⟩
  rw [create, hext']
  try dsimp only
  rw [show (match (lookupProp (dedupKeys defnRaw) "include").getD .undef with
      | .undef => (none : Option (List Value))
      | .arr xs => some xs
      | _ => some []) = includeList defnRaw by
    rw [hinc']
    rfl]
  rw [applyMixins_ok w _ hall []]
  dsimp only
  rw [hst2]

end MixinTargetLemmas

/--
C3: a definition with an own enumerable key literally named `super` makes
`create` raise `ReservedNameError` synchronously: the result is the error and
no class descriptor; since nothing was returned, no mutation of an output
class descriptor is observable (the world is unchanged).  The `extend` and
`include` entries are assumed well-formed as the data model requires, since a
malformed one raises the host `TypeError` earlier.
-/
theorem c3_reserved_name_error (w : World) (defn : List (String × Value))
    (hsup : "super" ∈ defn.map Prod.fst)
    (hext : extendOK defn = true)
    (hinc : includeOK defn = true) :
    create w defn = .error .reservedNameError := by
  have hsup' : "super" ∈ (dedupKeys defn).map Prod.fst :=
    dedupKeys_keeps_super defn hsup
  have hall : ∀ x ∈ (includeList defn).getD [], ∃ c, x = Value.classFn c := by
    intro x hx
    exact (isClassVal_iff x).mp (List.all_eq_true.mp hinc x hx)
  rw [create]
  rw [show lookupProp (dedupKeys defn) "extend" = lookupProp defn "extend" from
    lookupProp_dedupKeys _ _]
  cases hE : (lookupProp defn "extend").getD .undef
  case undef =>
    dsimp only
    rw [show (match (lookupProp (dedupKeys defn) "include").getD .undef with
        | .undef => (none : Option (List Value))
        | .arr xs => some xs
        | _ => some []) = includeList defn by
      rw [lookupProp_dedupKeys]
      rfl]
    rw [applyMixins_ok w _ hall []]
    dsimp only
    rw [defineLoop_super_error none (dedupKeys defn) hsup' _]
  case classFn b =>
    dsimp only
    rw [show (match (lookupProp (dedupKeys defn) "include").getD .undef with
        | .undef => (none : Option (List Value))
        | .arr xs => some xs
        | _ => some []) = includeList defn by
      rw [lookupProp_dedupKeys]
      rfl]
    rw [applyMixins_ok w _ hall []]
    dsimp only
    rw [defineLoop_super_error (some b) (dedupKeys defn) hsup' _]
  all_goals simp [extendOK, hE] at hext

/-- Witness for C3 at a concrete input: the definition
`{foo: 1, super: function , static: {s: function }}` in a world with one
class, extended by nothing. -/
theorem c3_reserved_name_error_witness :
    create [] [("foo", .vNat 1), ("super", .plainFn (.lit .undef)),
        ("static", .objLit [("s", .plainFn (.lit .undef))])]
      = .error .reservedNameError := by
  apply c3_reserved_name_error
  · decide
  · decide
  · decide

/-- The statics accumulated by step 4 starting from an empty static table:
exactly the own properties of the definition's `static` block, independent of
the base and of the mixins. -/
theorem defineLoop_statics_closed (base : Option Nat) (st st2 : ClazzD)
    (defn : List (String × Value)) (hst : st.statics = [])
    (hdl : defineLoop base st (dedupKeys defn) = .ok st2) (n : String) :
    lookupProp st2.statics n =
      match (lookupProp defn "static").getD .undef with
      | .objLit ps => lookupProp ps n
      | _ => none := by
  have hstat := defineLoop_statics_lookup base (dedupKeys defn)
    (keys_dedupKeys_nodup defn) _ _ hdl
  rw [lookupProp_dedupKeys, hst] at hstat
  rw [hstat]
  cases hv : lookupProp defn "static" with
  | none => rfl
  | some v =>
    cases v with
    | objLit ps =>
      dsimp only [copyStatics, Option.getD]
      rw [lookupProp_foldl_setProp _ (keys_dedupKeys_nodup ps),
        lookupProp_dedupKeys]
      cases lookupProp ps n <;> rfl
    | undef => rfl
    | vStr s => rfl
    | vNat k => rfl
    | vBool bb => rfl
    | emptyObj => rfl
    | arr xs => rfl
    | plainFn bd => rfl
    | wrappedFn mm sg bs => rfl
    | classFn c => rfl
    | objectFn => rfl
    | noSuperFn => rfl
    | nativeFn nm => rfl

/--
C6: for every created class — whether its definition carries an `extend`
entry or not — the statics installed on it are exactly the own enumerable
properties of the definition's `static` block (as a partial map on names);
in particular no static member of the `extend` base and none of any included
mixin shows up — the right-hand side mentions only the definition's own
`static` entry, whatever statics the base or the mixins carry.
-/
theorem c6_statics_exact (w : World) (defn : List (String × Value))
    (hext : extendOK defn = true)
    (hs : lookupProp defn "super" = none)
    (hincOK : includeOK defn = true) :
    ∀ w' cid d, create w defn = .ok (w', cid) → w'[cid]? = some d →
      ∀ n, lookupProp d.statics n =
        match (lookupProp defn "static").getD .undef with
        | .objLit ps => lookupProp ps n
        | _ => none := by
  intro w' cid d hc hd n
  cases hE : (lookupProp defn "extend").getD .undef with
  | classFn b =>
    have hext2 : lookupProp defn "extend" = some (.classFn b) := by
      cases hL : lookupProp defn "extend" with
      | none =>
        rw [hL] at hE
        simp at hE
      | some v =>
        rw [hL, Option.getD_some] at hE
        rw [hE]
    obtain ⟨st2, hdl, hcr⟩ := create_ok_extend w defn b hext2 hs hincOK
    rw [hcr] at hc
    simp only [Except.ok.injEq, Prod.mk.injEq] at hc
    obtain ⟨hw', hcid⟩ := hc
    subst hw'
    subst hcid
    rw [List.getElem?_concat_length] at hd
    simp only [Option.some.injEq] at hd
    subst hd
    exact defineLoop_statics_closed (some b) _ st2 defn rfl hdl n
  | undef =>
    obtain ⟨st2, hdl, hcr⟩ := create_ok_noextend w defn hE hs hincOK
    rw [hcr] at hc
    simp only [Except.ok.injEq, Prod.mk.injEq] at hc
    obtain ⟨hw', hcid⟩ := hc
    subst hw'
    subst hcid
    rw [List.getElem?_concat_length] at hd
    simp only [Option.some.injEq] at hd
    subst hd
    exact defineLoop_statics_closed none _ st2 defn rfl hdl n
  | vStr s => simp [extendOK, hE] at hext
  | vNat k => simp [extendOK, hE] at hext
  | vBool bb => simp [extendOK, hE] at hext
  | emptyObj => simp [extendOK, hE] at hext
  | objLit ps => simp [extendOK, hE] at hext
  | arr xs => simp [extendOK, hE] at hext
  | plainFn bd => simp [extendOK, hE] at hext
  | wrappedFn mm sg bs => simp [extendOK, hE] at hext
  | objectFn => simp [extendOK, hE] at hext
  | noSuperFn => simp [extendOK, hE] at hext
  | nativeFn nm => simp [extendOK, hE] at hext

/-- Witness for C6 at concrete inputs: in `wStatics3`, the subclass
descriptor has the static `own` and neither the base static `qux` nor the
mixin static `mix`; and in the extend-less `wBazStyle` (the spec's `Baz`
scenario), the including class has no static `qux` either. -/
theorem c6_statics_exact_witness :
    lookupProp dStatics3.statics "own" = some (.vNat 7) ∧
    lookupProp dStatics3.statics "qux" = none ∧
    lookupProp dStatics3.statics "mix" = none ∧
    lookupProp dBazStyle.statics "qux" = none := by
  have h := c6_statics_exact (createW (createW []
      [("static", .objLit [("qux", .plainFn (.lit (.str "qux")))])])
      [("static", .objLit [("mix", .plainFn (.lit (.str "mix")))])])
    [("extend", .classFn 0), ("include", .arr [.classFn 1]),
     ("static", .objLit [("own", .vNat 7)])] rfl rfl rfl
  have h2 := c6_statics_exact (createW []
      [("static", .objLit [("qux", .plainFn (.lit (.str "qux")))]),
       ("bar", .plainFn (.lit (.str "bar")))])
    [("include", .arr [.classFn 0]), ("moo", .plainFn (.lit (.str "moo")))]
    rfl rfl rfl
  refine ⟨?_, ?_, ?_, ?_⟩
  · exact (h wStatics3 2 dStatics3 rfl rfl "own").trans rfl
  · exact (h wStatics3 2 dStatics3 rfl rfl "qux").trans rfl
  · exact (h wStatics3 2 dStatics3 rfl rfl "mix").trans rfl
  · exact (h2 wBazStyle 1 dBazStyle rfl rfl "qux").trans rfl

/--
C4: member resolution precedence on a created class.  For any name `m` that
is not one of the reserved keys (nor `constructor`, which the finalize step
always rebinds), the effective member of the new class is: the own definition
of `m` (wrapped when callable) if one exists, otherwise the value the last
mixin declaring `m` contributes, otherwise the base chain value of `m` —
that is: base < earlier includes < later includes < own members.
-/
theorem c4_member_precedence (w : World) (defn : List (String × Value))
    (b : Nat) (ms : List Value) (m : String)
    (hext : lookupProp defn "extend" = some (.classFn b))
    (hb : b < w.length)
    (hinc : lookupProp defn "include" = some (.arr ms))
    (hs : lookupProp defn "super" = none)
    (hincOK : includeOK defn = true)
    (hm : m ∉ ["initialize", "extend", "include", "static", "super", "constructor"]) :
    ∀ w' cid, create w defn = .ok (w', cid) →
      protoGet w' cid m =
        match lookupProp defn m with
        | some v => if isFunction v then wrapMethodToHaveSuper v m (some b) else v
        | none =>
          match mixinsGet w m ms with
          | some v => v
          | none => protoGet w b m := by
  simp only [List.mem_cons, List.mem_singleton, not_or] at hm
  obtain ⟨hm1, hm2, hm3, hm4, hm5, hm6, -⟩ := hm
  obtain ⟨st2, hdl, hcr⟩ := create_ok_extend w defn b hext hs hincOK
  intro w' cid hc
  rw [hcr] at hc
  simp only [Except.ok.injEq, Prod.mk.injEq] at hc
  obtain ⟨hw', hcid⟩ := hc
  subst hw'
  subst hcid
  have hIL : includeList defn = some ms := by
    rw [includeList, hinc]
    rfl
  have hplook := defineLoop_protoProps_lookup (some b) (dedupKeys defn) m
    (keys_dedupKeys_nodup defn) hm1 hm2 hm3 hm4 hm5 _ _ hdl
  rw [lookupProp_dedupKeys] at hplook
  have hD : (w ++ [{ st2 with
      protoProps := setProp st2.protoProps "constructor" (.classFn w.length) }])[w.length]?
      = some { st2 with
        protoProps := setProp st2.protoProps "constructor" (.classFn w.length) } :=
    List.getElem?_concat_length _ _
  rw [protoGet_eq, hD]
  dsimp only
  rw [lookupProp_setProp_ne _ _ _ _ hm6, hplook]
  cases hv : lookupProp defn m with
  | some v => rfl
  | none =>
    dsimp only
    have hmix := mixFold_lookup w m ((includeList defn).getD []) []
    rw [hIL] at hmix
    dsimp only [Option.getD] at hmix
    rw [hIL]
    dsimp only [Option.getD]
    rw [hmix]
    cases hg : mixinsGet w m ms with
    | some v => rfl
    | none =>
      dsimp only [lookupProp]
      have hpar : st2.protoParent = some b :=
        (defineLoop_fields (some b) (dedupKeys defn) _ _ hdl).1
      rw [hpar]
      dsimp only
      rw [if_pos hb]
      exact protoGet_append w _ m b hb

/-- Witness for C4: base with members `m` and `bo`, two mixins both declaring
`m` and one declaring `mo`, a subclass owning `m`: the own wrapped `m` wins,
the later mixin wins for `mi`, the mixin value beats the base, and `bo` falls
through to the base. -/
theorem c4_member_precedence_witness :
    (protoGet (createW (createW (createW (createW []
        [("m", .vStr "base-m"), ("bo", .vStr "base-bo"), ("mi", .vStr "base-mi")])
        [("m", .vStr "mixA-m"), ("mi", .vStr "mixA-mi")])
        [("m", .vStr "mixB-m")])
        [("extend", .classFn 0), ("include", .arr [.classFn 1, .classFn 2]),
         ("m", .plainFn (.lit (.str "own-m")))]) 3 "m"
        = wrapMethodToHaveSuper (.plainFn (.lit (.str "own-m"))) "m" (some 0)) ∧
    (protoGet (createW (createW (createW (createW []
        [("m", .vStr "base-m"), ("bo", .vStr "base-bo"), ("mi", .vStr "base-mi")])
        [("m", .vStr "mixA-m"), ("mi", .vStr "mixA-mi")])
        [("m", .vStr "mixB-m")])
        [("extend", .classFn 0), ("include", .arr [.classFn 1, .classFn 2]),
         ("m", .plainFn (.lit (.str "own-m")))]) 3 "mi"
        = .vStr "mixA-mi") ∧
    (protoGet (createW (createW (createW (createW []
        [("m", .vStr "base-m"), ("bo", .vStr "base-bo"), ("mi", .vStr "base-mi")])
        [("m", .vStr "mixA-m"), ("mi", .vStr "mixA-mi")])
        [("m", .vStr "mixB-m")])
        [("extend", .classFn 0), ("include", .arr [.classFn 1, .classFn 2]),
         ("m", .plainFn (.lit (.str "own-m")))]) 3 "bo"
        = .vStr "base-bo") := by
  refine ⟨?_, ?_, ?_⟩
  · have h := c4_member_precedence
      (createW (createW (createW []
        [("m", .vStr "base-m"), ("bo", .vStr "base-bo"), ("mi", .vStr "base-mi")])
        [("m", .vStr "mixA-m"), ("mi", .vStr "mixA-mi")])
        [("m", .vStr "mixB-m")])
      [("extend", .classFn 0), ("include", .arr [.classFn 1, .classFn 2]),
       ("m", .plainFn (.lit (.str "own-m")))]
      0 [.classFn 1, .classFn 2] "m" rfl (by decide) rfl rfl (by decide) (by decide)
      _ 3 rfl
    refine h.trans ?_
    rfl
  · have h := c4_member_precedence
      (createW (createW (createW []
        [("m", .vStr "base-m"), ("bo", .vStr "base-bo"), ("mi", .vStr "base-mi")])
        [("m", .vStr "mixA-m"), ("mi", .vStr "mixA-mi")])
        [("m", .vStr "mixB-m")])
      [("extend", .classFn 0), ("include", .arr [.classFn 1, .classFn 2]),
       ("m", .plainFn (.lit (.str "own-m")))]
      0 [.classFn 1, .classFn 2] "mi" rfl (by decide) rfl rfl (by decide) (by decide)
      _ 3 rfl
    refine h.trans ?_
    rfl
  · have h := c4_member_precedence
      (createW (createW (createW []
        [("m", .vStr "base-m"), ("bo", .vStr "base-bo"), ("mi", .vStr "base-mi")])
        [("m", .vStr "mixA-m"), ("mi", .vStr "mixA-mi")])
        [("m", .vStr "mixB-m")])
      [("extend", .classFn 0), ("include", .arr [.classFn 1, .classFn 2]),
       ("m", .plainFn (.lit (.str "own-m")))]
      0 [.classFn 1, .classFn 2] "bo" rfl (by decide) rfl rfl (by decide) (by decide)
      _ 3 rfl
    refine h.trans ?_
    rfl


/--
C7: for a definition with `extend = b` and no own `initialize` key, the
resolved initializer of the new class is `b.prototype.constructor` — for a
class built by `create` that is the `b` constructor itself — so constructing
an instance of the new class (here with no `include` either) behaves exactly
as invoking `b`'s constructor on the fresh instance with the same arguments:
the instance gets the constructor-assigned state of an instance of `b`.
-/
theorem c7_default_init_is_base_ctor (w : World) (defn : List (String × Value))
    (b : Nat)
    (hext : lookupProp defn "extend" = some (.classFn b))
    (hni : lookupProp defn "initialize" = none)
    (hninc : lookupProp defn "include" = none)
    (hs : lookupProp defn "super" = none)
    (hctor : protoGet w b "constructor" = .classFn b) :
    ∀ w' cid d, create w defn = .ok (w', cid) → w'[cid]? = some d →
      d.initializer = some (protoGet w b "constructor") ∧
      ∀ fuel args, newInstance (fuel + 3) w' cid args =
        asCtorResult (callFn (fuel + 1) w' { cls := cid, props := [] }
          (.classFn b) args) := by
  have hincOK : includeOK defn = true := by
    rw [includeOK, includeList, hninc]
    rfl
  obtain ⟨st2, hdl, hcr⟩ := create_ok_extend w defn b hext hs hincOK
  intro w' cid d hc hd
  rw [hcr] at hc
  simp only [Except.ok.injEq, Prod.mk.injEq] at hc
  obtain ⟨hw', hcid⟩ := hc
  subst hw'
  subst hcid
  rw [List.getElem?_concat_length] at hd
  simp only [Option.some.injEq] at hd
  subst hd
  have hinit : st2.initializer = some (protoGet w b "constructor") := by
    have hx := defineLoop_initializer_lookup (some b) (dedupKeys defn)
      (keys_dedupKeys_nodup defn) _ _ hdl
    rw [lookupProp_dedupKeys, hni] at hx
    exact hx
  have hincs : st2.includes = none := by
    have hx := (defineLoop_fields (some b) (dedupKeys defn) _ _ hdl).2
    rw [hx]
    show includeList defn = none
    rw [includeList, hninc]
    rfl
  constructor
  · exact hinit
  · intro fuel args
    rw [newInstance, callFn]
    try dsimp only
    rw [runCtor]
    try dsimp only
    rw [List.getElem?_concat_length]
    try dsimp only
    rw [hincs]
    try dsimp only [Option.getD]
    rw [runIncludes]
    try dsimp only
    rw [hinit, hctor]
    try dsimp only
    cases hcf : callFn (fuel + 1)
        (w ++ [{ protoProps := setProp st2.protoProps "constructor" (.classFn w.length),
                 protoParent := st2.protoParent, statics := st2.statics,
                 includes := none, initializer := some (.classFn b) }])
        { cls := w.length, props := [] } (.classFn b) args with
    | none => rfl
    | some o =>
      cases o with
      | ok i2 v => rfl
      | thrown i2 e => rfl

/-- Witness for C7 at a concrete input: in `wSubFoo`, the subclass's
resolved initializer is the base constructor, and constructing the subclass
acts as running the base constructor on the fresh instance. -/
theorem c7_default_init_is_base_ctor_witness :
    dSubFoo.initializer = some (.classFn 0) ∧
    newInstance 10 wSubFoo 1 []
      = asCtorResult (callFn 8 wSubFoo { cls := 1, props := [] }
          (.classFn 0) []) := by
  have h := c7_default_init_is_base_ctor wBaseFoo [("extend", .classFn 0)] 0
    rfl rfl rfl rfl rfl
  constructor
  · exact ((h wSubFoo 1 dSubFoo rfl rfl).1).trans rfl
  · exact (h wSubFoo 1 dSubFoo rfl rfl).2 7 []

theorem instGet_instSet_self (w : World) (i : Inst) (n : String) (v : Value) :
    instGet w (instSet i n v) n = v := by
  rw [instGet]
  show (match lookupProp (setProp i.props n v) n with
    | some x => x
    | none => protoGet w i.cls n) = v
  rw [lookupProp_setProp_self]

/--
C5: a wrapped method invocation saves the instance's dispatch handle, runs
the member on the instance with `super` rebound to
`base.prototype[signature] || noSuper`, and afterwards the handle reads the
saved value again — both when the member returned normally and when it threw.
Nested wrapped calls therefore each restore the handle their caller saw.
-/
theorem c5_super_save_restore (fuel : Nat) (w : World) (i : Inst) (m : Value)
    (sig : String) (base : Option Nat) (args : List Value) :
    (callFn (fuel + 1) w i (.wrappedFn m sig base) args =
      match callFn fuel w (instSet i "super" (superBinding w base sig)) m args with
      | none => none
      | some (.ok i2 v) => some (.ok (instSet i2 "super" (instGet w i "super")) v)
      | some (.thrown i2 e) =>
          some (.thrown (instSet i2 "super" (instGet w i "super")) e)) ∧
    (∀ i2 v, callFn (fuel + 1) w i (.wrappedFn m sig base) args = some (.ok i2 v) →
      instGet w i2 "super" = instGet w i "super") ∧
    (∀ i2 e, callFn (fuel + 1) w i (.wrappedFn m sig base) args = some (.thrown i2 e) →
      instGet w i2 "super" = instGet w i "super") := by
  have hunf : callFn (fuel + 1) w i (.wrappedFn m sig base) args =
      match callFn fuel w (instSet i "super" (superBinding w base sig)) m args with
      | none => none
      | some (.ok i2 v) => some (.ok (instSet i2 "super" (instGet w i "super")) v)
      | some (.thrown i2 e) =>
          some (.thrown (instSet i2 "super" (instGet w i "super")) e) := rfl
  refine ⟨hunf, ?_, ?_⟩
  · intro i2 v h
    rw [hunf] at h
    cases hc : callFn fuel w (instSet i "super" (superBinding w base sig)) m args with
    | none =>
      rw [hc] at h
      exact Option.noConfusion h
    | some o =>
      rw [hc] at h
      cases o with
      | ok i3 u =>
        simp only [Option.some.injEq, Outcome.ok.injEq] at h
        rw [← h.1]
        exact instGet_instSet_self w i3 "super" (instGet w i "super")
      | thrown i3 e =>
        simp at h
  · intro i2 e h
    rw [hunf] at h
    cases hc : callFn fuel w (instSet i "super" (superBinding w base sig)) m args with
    | none =>
      rw [hc] at h
      exact Option.noConfusion h
    | some o =>
      rw [hc] at h
      cases o with
      | ok i3 u =>
        simp at h
      | thrown i3 e2 =>
        simp only [Option.some.injEq, Outcome.thrown.injEq] at h
        rw [← h.1]
        exact instGet_instSet_self w i3 "super" (instGet w i "super")

/-- Witness for C5 at a concrete input: a wrapped method whose body throws.
The instance held `5` in its `super` slot; after the call fails, reading the
slot yields `5` again. -/
theorem c5_super_save_restore_witness :
    callFn 3 [] { cls := 0, props := [("super", .vNat 5)] }
        (.wrappedFn (.plainFn .throwErr) "m" none) []
      = some (.thrown (instSet (instSet { cls := 0, props := [("super", .vNat 5)] }
          "super" .noSuperFn) "super" (.vNat 5)) .userError) ∧
    instGet [] (instSet (instSet { cls := 0, props := [("super", .vNat 5)] }
        "super" .noSuperFn) "super" (.vNat 5)) "super" = .vNat 5 := by
  constructor
  · rfl
  · refine ((c5_super_save_restore 2 [] { cls := 0, props := [("super", .vNat 5)] }
      (.plainFn .throwErr) "m" none []).2.2
      (instSet (instSet { cls := 0, props := [("super", .vNat 5)] }
        "super" .noSuperFn) "super" (.vNat 5)) .userError rfl).trans ?_
    rfl

/--
C2 counterexample: the claim asserts that for a class created without
`extend`, invoking `this.super` inside any wrapped method — `initialize`
included — raises `NoSuperclassMethodError`.  But `create` defaults the base
to the host `Object` function, and `Object.prototype.constructor` is the
`Object` function, which is truthy: constructing an instance of
`create(\x7b initialize: function () \x7b return this.super(); \x7d \x7d)` binds
the handle to `Object`, calls it, and returns normally — no error is raised.
-/
theorem c2_counterexample :
    newInstance 10 wNoExtendInit 0 []
        = some (.ok { cls := 0, props := [("super", .undef)] } .undef) ∧
    raisedNoSuper (newInstance 10 wNoExtendInit 0 []) = false :=
  ⟨rfl, rfl⟩

/--
C2 amended: invoking `this.super` inside a wrapped method raises
`NoSuperclassMethodError` exactly when the handle was bound to the `noSuper`
sentinel, and the sentinel is chosen iff `base.prototype[signature]` is falsy
at invocation time.  Concretely: (1) when the lookup is falsy, the canonical
body `return this.super()` ends in `NoSuperclassMethodError` with the handle
restored; (2) when the lookup is truthy the handle is bound to the looked-up
value itself, not the sentinel; (3) for a class without `extend` the base is
`Object`, so the `initialize` wrapper binds the handle to
`Object.prototype.constructor = Object`, whose invocation returns an empty
object instead of raising.
-/
theorem c2_amended (fuel : Nat) (w : World) (i : Inst) (sig : String)
    (base : Option Nat) :
    (isTruthy (protoGetOfBase w base sig) = false →
      callFn (fuel + 4) w i
          (.wrappedFn (.plainFn (.callOnThis "super" [])) sig base) []
        = some (.thrown (instSet (instSet i "super" .noSuperFn) "super"
            (instGet w i "super")) .noSuperclassMethodError)) ∧
    (isTruthy (protoGetOfBase w base sig) = true →
      superBinding w base sig = protoGetOfBase w base sig) ∧
    (superBinding w none "constructor" = .objectFn ∧
      callFn (fuel + 1) w i .objectFn [] = some (.ok i .emptyObj)) := by
  refine ⟨?_, ?_, rfl, rfl⟩
  · intro hfalsy
    have hbind : superBinding w base sig = .noSuperFn := by
      rw [superBinding]
      try dsimp only
      rw [hfalsy]
      rfl
    have hInner : callFn (fuel + 3) w (instSet i "super" .noSuperFn)
        (.plainFn (.callOnThis "super" [])) []
        = some (.thrown (instSet i "super" .noSuperFn) .noSuperclassMethodError) := by
      rw [callFn]
      try dsimp only
      rw [evalBody]
      try dsimp only
      rw [instGet_instSet_self]
      rw [evalArgs]
      try dsimp only
      rw [callFn]
    have hmain := (c5_super_save_restore (fuel + 3) w i
      (.plainFn (.callOnThis "super" [])) sig base []).1
    rw [hbind] at hmain
    show callFn ((fuel + 3) + 1) w i
        (.wrappedFn (.plainFn (.callOnThis "super" [])) sig base) [] = _
    rw [hmain, hInner]
  · intro htruthy
    rw [superBinding]
    try dsimp only
    rw [htruthy]
    rfl

/-- Witness for C2 amended, at the concrete falsy input `sig = 'm'`,
`base = Object`, the empty world and a fresh instance. -/
theorem c2_amended_witness :
    callFn 4 [] { cls := 0, props := [] }
        (.wrappedFn (.plainFn (.callOnThis "super" [])) "m" none) []
      = some (.thrown { cls := 0, props := [("super", .undef)] }
          .noSuperclassMethodError) := by
  refine ((c2_amended 0 [] { cls := 0, props := [] } "m" none).1 rfl).trans ?_
  rfl

/--
C1 counterexample: in the concrete scenario `wMixinSuper` (`C` extends
`Base2` and includes `M`, `M` extends `Base1`, both bases declare `m`),
invoking `m` — a member copied into `C` from the mixin `M`, whose body is
`return this.super()` — yields `'fromMixinBase'`, the result of `Base1`'s
`m` (the hierarchy of the class that defined the mixin), whereas the
same-named method of `C`'s declared `extend` target yields
`'fromIncludingBase'`; the two runs differ, so the dispatch handle did not
resolve to the `extend` target declared by the including class.
-/
theorem c1_counterexample :
    newInstance 20 wMixinSuper 3 [] = some (.ok { cls := 3, props := [] } .undef) ∧
    invokeMethod 20 wMixinSuper { cls := 3, props := [] } "m" []
      = some (.ok { cls := 3, props := [("super", .undef)] }
          (.vStr "fromMixinBase")) ∧
    callFn 20 wMixinSuper { cls := 3, props := [] } (protoGet wMixinSuper 2 "m") []
      = some (.ok { cls := 3, props := [("super", .undef)] }
          (.vStr "fromIncludingBase")) ∧
    invokeMethod 20 wMixinSuper { cls := 3, props := [] } "m" []
      ≠ callFn 20 wMixinSuper { cls := 3, props := [] } (protoGet wMixinSuper 2 "m") [] := by
  have e2 : invokeMethod 20 wMixinSuper { cls := 3, props := [] } "m" []
      = some (.ok { cls := 3, props := [("super", .undef)] }
          (.vStr "fromMixinBase")) := rfl
  have e3 : callFn 20 wMixinSuper { cls := 3, props := [] } (protoGet wMixinSuper 2 "m") []
      = some (.ok { cls := 3, props := [("super", .undef)] }
          (.vStr "fromIncludingBase")) := rfl
  refine ⟨rfl, e2, e3, ?_⟩
  intro h
  rw [e2, e3] at h
  simp at h

/--
C1 amended: a callable member copied into a class from an included mixin
keeps the wrapper installed at the mixin's own creation, so its captured
base is the `extend` target the mixin declared — not the `extend` target
declared by the including class.  For every world, every mixin class `M`
created with `extend` target `bM` and a callable member `m`, and every later
class `C` created (in any extension of the world) with any `extend` target
`bC` and an `include` list containing `M` — with no own `m` and no later
include contributing an `m` — the member `C` ends up with is `M`'s wrapper
closed over `bM` (not `bC`), `C`'s prototype parent is `bC`, and invoking
that wrapper installs the dispatch handle resolved through `bM`'s prototype.
-/
theorem c1_amended (w : World) (defnM : List (String × Value)) (bM : Nat)
    (m : String) (v : Value)
    (hextM : lookupProp defnM "extend" = some (.classFn bM))
    (hsM : lookupProp defnM "super" = none)
    (hincOKM : includeOK defnM = true)
    (hm : m ∉ ["initialize", "extend", "include", "static", "super", "constructor"])
    (hv : lookupProp defnM m = some v)
    (hf : isFunction v = true) :
    ∀ wM cM, create w defnM = .ok (wM, cM) →
      (∀ ext defnC bC msPre msPost,
        lookupProp defnC "extend" = some (.classFn bC) →
        lookupProp defnC "super" = none →
        includeOK defnC = true →
        lookupProp defnC "include" = some (.arr (msPre ++ .classFn cM :: msPost)) →
        lookupProp defnC m = none →
        (∀ x ∈ msPost, mixinsGet (wM ++ ext) m [x] = none) →
        ∀ wC cidC, create (wM ++ ext) defnC = .ok (wC, cidC) →
          protoGet wC cidC m = .wrappedFn v m (some bM) ∧
          (wC[cidC]?).map ClazzD.protoParent = some (some bC)) ∧
      (∀ fuel w2 i args,
        callFn (fuel + 1) w2 i (.wrappedFn v m (some bM)) args =
          match callFn fuel w2 (instSet i "super" (superBinding w2 (some bM) m)) v args with
          | none => none
          | some (.ok i2 u) => some (.ok (instSet i2 "super" (instGet w2 i "super")) u)
          | some (.thrown i2 e) =>
              some (.thrown (instSet i2 "super" (instGet w2 i "super")) e)) := by
  simp only [List.mem_cons, List.mem_singleton, not_or] at hm
  obtain ⟨hm1, hm2, hm3, hm4, hm5, hm6, -⟩ := hm
  obtain ⟨stM, hdlM, hcrM⟩ := create_ok_extend w defnM bM hextM hsM hincOKM
  intro wM cM hcM
  rw [hcrM] at hcM
  simp only [Except.ok.injEq, Prod.mk.injEq] at hcM
  obtain ⟨hwM, hcM2⟩ := hcM
  refine ⟨?_, fun fuel w2 i args => rfl⟩
  have hMown : lookupProp stM.protoProps m = some (.wrappedFn v m (some bM)) := by
    have hx := defineLoop_protoProps_lookup (some bM) (dedupKeys defnM) m
      (keys_dedupKeys_nodup defnM) hm1 hm2 hm3 hm4 hm5 _ _ hdlM
    rw [lookupProp_dedupKeys, hv] at hx
    rw [hx]
    try dsimp only
    rw [hf]
    rfl
  have hdM : wM[cM]? = some { stM with
      protoProps := setProp stM.protoProps "constructor" (.classFn w.length) } := by
    rw [← hwM, ← hcM2]
    exact List.getElem?_concat_length _ _
  have hlt : cM < wM.length := by
    rw [← hwM, ← hcM2]
    simp
  have hOwnDM : lookupProp (setProp stM.protoProps "constructor"
      (.classFn w.length)) m = some (.wrappedFn v m (some bM)) := by
    rw [lookupProp_setProp_ne _ _ _ _ hm6]
    exact hMown
  have hchainM : lookupProp (chainEnum wM cM) m = some (.wrappedFn v m (some bM)) :=
    lookupProp_chainEnum_own wM cM _ m _ hdM hOwnDM
  intro ext defnC bC msPre msPost hextC hsC hincOKC hincC hnoOwn hpost
  have hchainExt : lookupProp (chainEnum (wM ++ ext) cM) m
      = some (.wrappedFn v m (some bM)) := by
    rw [chainEnum_append wM ext cM hlt]
    exact hchainM
  have hmixNone : mixinsGet (wM ++ ext) m msPost = none :=
    mixinsGet_none_of_each _ _ msPost hpost
  have hmixCons : mixinsGet (wM ++ ext) m (.classFn cM :: msPost)
      = some (.wrappedFn v m (some bM)) := by
    rw [mixinsGet_cons_none _ _ _ _ hmixNone]
    exact hchainExt
  have hmixAll : mixinsGet (wM ++ ext) m (msPre ++ .classFn cM :: msPost)
      = some (.wrappedFn v m (some bM)) :=
    mixinsGet_append_of_some _ _ _ _ hmixCons msPre
  obtain ⟨stC, hdlC, hcrC⟩ := create_ok_extend (wM ++ ext) defnC bC hextC hsC hincOKC
  intro wC cidC hcC
  rw [hcrC] at hcC
  simp only [Except.ok.injEq, Prod.mk.injEq] at hcC
  obtain ⟨hwC, hcidC⟩ := hcC
  subst hwC
  subst hcidC
  have hIL : includeList defnC = some (msPre ++ .classFn cM :: msPost) := by
    rw [includeList, hincC]
    rfl
  have hplookC := defineLoop_protoProps_lookup (some bC) (dedupKeys defnC) m
    (keys_dedupKeys_nodup defnC) hm1 hm2 hm3 hm4 hm5 _ _ hdlC
  rw [lookupProp_dedupKeys, hnoOwn] at hplookC
  try dsimp only at hplookC
  rw [hIL] at hplookC
  try dsimp only [Option.getD] at hplookC
  have hmixL := mixFold_lookup (wM ++ ext) m ((includeList defnC).getD []) []
  rw [hIL] at hmixL
  try dsimp only [Option.getD] at hmixL
  rw [hmixAll] at hmixL
  try dsimp only at hmixL
  have hCown : lookupProp stC.protoProps m = some (.wrappedFn v m (some bM)) :=
    hplookC.trans hmixL
  refine ⟨?_, ?_⟩
  · rw [protoGet_eq, List.getElem?_concat_length]
    try dsimp only
    rw [lookupProp_setProp_ne _ _ _ _ hm6, hCown]
  · rw [List.getElem?_concat_length]
    have hpar := (defineLoop_fields (some bC) (dedupKeys defnC) _ _ hdlC).1
    try dsimp only [Option.map]
    rw [hpar]

/-- Witness for C1 at a concrete input: in the mixin-dispatch scenario
`wMixinSuper`, the member `m` that class 3 (`C`, which extends class 2 and
includes class 1) ends up with is the wrapper closed over class 1's base —
class 0 — while `C`'s prototype parent is class 2. -/
theorem c1_amended_witness :
    protoGet wMixinSuper 3 "m"
      = .wrappedFn (.plainFn (.callOnThis "super" [])) "m" (some 0) ∧
    (wMixinSuper[3]?).map ClazzD.protoParent = some (some 2) := by
  have h := (c1_amended wMixB1
      [("extend", .classFn 0), ("m", .plainFn (.callOnThis "super" []))]
      0 "m" (.plainFn (.callOnThis "super" []))
      rfl rfl rfl (by decide) rfl rfl wMixM 1 rfl).1
      [dMixBase2] [("extend", .classFn 2), ("include", .arr [.classFn 1])]
      2 [] [] rfl rfl rfl rfl rfl
      (fun x hx => absurd hx (List.not_mem_nil x))
      wMixinSuper 3 rfl
  exact h

/--
C9: (1) every callable own member is wrapped for superclass dispatch even
when nothing guarantees the base currently has a same-named method — the
conclusion needs no hypothesis about `b`'s prototype; (2) the wrapper looks
the base method up at each invocation, in whatever world the call runs in;
(3) concretely, in `wLate` the base (class 0) has no `m`, so calling `m`
raises `NoSuperclassMethodError`, but after `B.prototype.m` is injected the
very same member reaches the late-injected method.
-/
theorem c9_always_wrap_late_lookup (w : World) (defn : List (String × Value))
    (b : Nat) (m : String) (v : Value)
    (hext : lookupProp defn "extend" = some (.classFn b))
    (hs : lookupProp defn "super" = none)
    (hincOK : includeOK defn = true)
    (hm : m ∉ ["initialize", "extend", "include", "static", "super", "constructor"])
    (hv : lookupProp defn m = some v)
    (hf : isFunction v = true) :
    (∀ w' cid d, create w defn = .ok (w', cid) → w'[cid]? = some d →
      lookupProp d.protoProps m = some (.wrappedFn v m (some b))) ∧
    (∀ fuel w2 i args,
      callFn (fuel + 1) w2 i (.wrappedFn v m (some b)) args =
        match callFn fuel w2 (instSet i "super" (superBinding w2 (some b) m)) v args with
        | none => none
        | some (.ok i2 u) => some (.ok (instSet i2 "super" (instGet w2 i "super")) u)
        | some (.thrown i2 e) =>
            some (.thrown (instSet i2 "super" (instGet w2 i "super")) e)) ∧
    invokeMethod 10 wLate { cls := 1, props := [] } "m" []
      = some (.thrown { cls := 1, props := [("super", .undef)] }
          .noSuperclassMethodError) ∧
    invokeMethod 10 (injectMethod wLate 0 "m" (.plainFn (.lit (.str "late"))))
        { cls := 1, props := [] } "m" []
      = some (.ok { cls := 1, props := [("super", .undef)] } (.vStr "late")) := by
  simp only [List.mem_cons, List.mem_singleton, not_or] at hm
  obtain ⟨hm1, hm2, hm3, hm4, hm5, hm6, -⟩ := hm
  refine ⟨?_, fun fuel w2 i args => rfl, rfl, rfl⟩
  obtain ⟨st2, hdl, hcr⟩ := create_ok_extend w defn b hext hs hincOK
  intro w' cid d hc hd
  rw [hcr] at hc
  simp only [Except.ok.injEq, Prod.mk.injEq] at hc
  obtain ⟨hw', hcid⟩ := hc
  subst hw'
  subst hcid
  rw [List.getElem?_concat_length] at hd
  simp only [Option.some.injEq] at hd
  subst hd
  show lookupProp (setProp st2.protoProps "constructor" (.classFn w.length)) m = _
  rw [lookupProp_setProp_ne _ _ _ _ hm6]
  have hx := defineLoop_protoProps_lookup (some b) (dedupKeys defn) m
    (keys_dedupKeys_nodup defn) hm1 hm2 hm3 hm4 hm5 _ _ hdl
  rw [lookupProp_dedupKeys, hv] at hx
  rw [hx]
  try dsimp only
  rw [hf]
  rfl

/-- Witness for C9 at a concrete input: in `wLate`, class 1 declares `m`
although its base (class 0) has no `m`; the installed member is the wrapper
closed over base 0. -/
theorem c9_always_wrap_late_lookup_witness :
    lookupProp dLate.protoProps "m"
      = some (.wrappedFn (.plainFn (.callOnThis "super" [])) "m" (some 0)) :=
  (c9_always_wrap_late_lookup (createW [] [("x", .vNat 1)])
    [("extend", .classFn 0), ("m", .plainFn (.callOnThis "super" []))]
    0 "m" (.plainFn (.callOnThis "super" []))
    rfl rfl rfl (by decide) rfl rfl).1 wLate 1 dLate rfl rfl

/--
C8: the constructor of a created class first runs the constructors of the
classes listed in `include`, in declared left-to-right order (the include
run processes the list head first, threading the instance state), and only
then runs the resolved `initialize`.  Concretely, in `wCtorOrder` the
instance ends with `ab = 'A'` (mixin `B` saw mixin `A`'s write when it ran)
and `ownSee = 'B'` (the own initializer saw the last mixin's write), and
`last = 'own'` (the own initializer ran last).
-/
theorem c8_ctor_order :
    (∀ fuel (w : World) (i : Inst) (cid : Nat) (args : List Value),
      runCtor (fuel + 1) w i cid args =
        match w[cid]? with
        | none => some (.thrown i .typeError)
        | some d =>
          match runIncludes fuel w i (d.includes.getD []) with
          | none => none
          | some (.thrown i2 e) => some (.thrown i2 e)
          | some (.ok i2 _) =>
            match d.initializer with
            | none => some (.ok i2 .undef)
            | some f =>
              match callFn fuel w i2 f args with
              | none => none
              | some (.thrown i3 e) => some (.thrown i3 e)
              | some (.ok i3 _) => some (.ok i3 .undef)) ∧
    (∀ fuel (w : World) (i : Inst) (inc : Value) (rest : List Value),
      runIncludes (fuel + 1) w i (inc :: rest) =
        match callFn fuel w i inc [] with
        | none => none
        | some (.thrown i2 e) => some (.thrown i2 e)
        | some (.ok i2 _) => runIncludes fuel w i2 rest) ∧
    (finalInstOf (newInstance 30 wCtorOrder 2 [])).map
        (fun i => (instGet wCtorOrder i "ab", instGet wCtorOrder i "ownSee",
          instGet wCtorOrder i "last"))
      = some (.vStr "A", .vStr "B", .vStr "own") :=
  ⟨fun _ _ _ _ _ => rfl, fun _ _ _ _ _ => rfl, rfl⟩

/--
C10: the include run of the constructor calls each included class's
constructor with the empty argument list (`includes[i].call(this)` passes no
arguments), while the resolved `initialize` receives the constructor's whole
argument list.  Concretely, in `wArgFwd`, constructing with argument `'x'`
leaves the mixin's recorded first argument `undefined` and the own
initializer's recorded first argument `'x'`.
-/
theorem c10_args_forwarding :
    (∀ fuel (w : World) (i : Inst) (inc : Value) (rest : List Value),
      runIncludes (fuel + 1) w i (inc :: rest) =
        match callFn fuel w i inc [] with
        | none => none
        | some (.thrown i2 e) => some (.thrown i2 e)
        | some (.ok i2 _) => runIncludes fuel w i2 rest) ∧
    (∀ fuel (w : World) (i : Inst) (cid : Nat) (args : List Value) d,
      w[cid]? = some d →
      runCtor (fuel + 1) w i cid args =
        match runIncludes fuel w i (d.includes.getD []) with
        | none => none
        | some (.thrown i2 e) => some (.thrown i2 e)
        | some (.ok i2 _) =>
          match d.initializer with
          | none => some (.ok i2 .undef)
          | some f =>
            match callFn fuel w i2 f args with
            | none => none
            | some (.thrown i3 e) => some (.thrown i3 e)
            | some (.ok i3 _) => some (.ok i3 .undef)) ∧
    (finalInstOf (newInstance 20 wArgFwd 1 [.vStr "x"])).map
        (fun i => (instGet wArgFwd i "m0", instGet wArgFwd i "o0"))
      = some (.undef, .vStr "x") := by
  refine ⟨fun _ _ _ _ _ => rfl, ?_, rfl⟩
  intro fuel w i cid args d h
  rw [runCtor, h]

/-- Witness for C10 at a concrete input: the constructor unfolding applied
to `wArgFwd`'s class 1 with argument `'x'`. -/
theorem c10_args_forwarding_witness :
    runCtor 19 wArgFwd { cls := 1, props := [] } 1 [.vStr "x"] =
      match runIncludes 18 wArgFwd { cls := 1, props := [] }
          (dArgFwd.includes.getD []) with
      | none => none
      | some (.thrown i2 e) => some (.thrown i2 e)
      | some (.ok i2 _) =>
        match dArgFwd.initializer with
        | none => some (.ok i2 .undef)
        | some f =>
          match callFn 18 wArgFwd i2 f [.vStr "x"] with
          | none => none
          | some (.thrown i3 e) => some (.thrown i3 e)
          | some (.ok i3 _) => some (.ok i3 .undef) :=
  c10_args_forwarding.2.1 18 wArgFwd { cls := 1, props := [] } 1 [.vStr "x"]
    dArgFwd rfl

end Clazzy
